import Mathlib

/-!
Verification development for the inline visitor layer of Apache Arrow
(`cpp/src/arrow/visitor_inline.h`).

The file shallowly embeds the traversal engines of that header:

* `detail::VisitBitBlocks` / `detail::VisitBitBlocksVoid` — the
  status-returning and void bit-block traversal engines;
* `VisitNullBitmapInline` (both overloads) — the plain validity iterator;
* the `ArrayDataInlineVisitor` specializations for variable-length binary
  and fixed-size binary layouts, and the generic `c_type` one;
* `ArrayDataVisitor::Visit`;
* the three tag dispatchers `VisitTypeInline`, `VisitArrayInline`,
  `VisitScalarInline`.

The bit-block source, `arrow::internal::OptionalBitBlockCounter`, lives in
`arrow/util/bit_block_counter.h`, outside the embedded header.  Following
its documented contract, the sequence of blocks it produces is modelled as
an arbitrary list of `BitBlock` values satisfying `blocksOkB` (each
all-set / all-clear marking is truthful for the span it covers, an absent
bitmap behaves as if all bits were set, blocks are nonempty) and
`blocksCover` (the run lengths sum to the traversal length).

Bitmaps are modelled at the `BitUtil::GetBit` interface as `Nat → Bool`
functions (`none` standing for a null bitmap pointer).  Callbacks that
return `Status` are modelled as `Except ε Unit`-valued functions.  Each
engine returns the list of callback invocations it performed (in order)
together with its result, so every claim about invocation counts, order,
short-circuiting and propagated errors is a statement about that list.
-/

/-- One block produced by the bit-block counter: a run length together
with the all-set / all-clear summary flags (`BitBlockCount::AllSet`,
`BitBlockCount::NoneSet`). -/
structure BitBlock where
  len : Nat
  allSet : Bool
  allClear : Bool
deriving DecidableEq, Repr

/-- Reading bit `j` of an optional validity bitmap. A null bitmap pointer
behaves as if every bit were set (`OptionalBitBlockCounter` contract). -/
def effBit (bitmap : Option (Nat → Bool)) (j : Nat) : Bool :=
  match bitmap with
  | none => true
  | some f => f j

/-- Total number of positions covered by a block list. -/
def sumLen (blocks : List BitBlock) : Nat :=
  (blocks.map BitBlock.len).sum

/-- Modelled from the spec: truthfulness of one block of the external
bit-block counter for the span `[start, start + len)` of the traversal
(bits `offset + start .. offset + start + len - 1` of the bitmap):
an all-set block covers only set bits, an all-clear block only clear
bits, a null bitmap yields only all-set blocks, and blocks are
nonempty. -/
def blockOkB (bitmap : Option (Nat → Bool)) (offset start : Nat) (b : BitBlock) : Bool :=
  (!b.allSet || (List.range b.len).all fun i => effBit bitmap (offset + (start + i))) &&
  ((!b.allClear || (List.range b.len).all fun i => !effBit bitmap (offset + (start + i))) &&
  ((bitmap.isSome || b.allSet) && decide (0 < b.len)))

/-- Modelled from the spec: truthfulness of a whole block list starting
at traversal position `start`. -/
def blocksOkB (bitmap : Option (Nat → Bool)) (offset : Nat) : Nat → List BitBlock → Bool
  | _, [] => true
  | start, b :: bs => blockOkB bitmap offset start b && blocksOkB bitmap offset (start + b.len) bs

/-- Modelled from the spec: the runs produced by the counter exactly
cover `[0, length)`. -/
def blocksCover (blocks : List BitBlock) (length : Nat) : Prop :=
  sumLen blocks = length

/-- One callback invocation of the value traversal engines: the not-null
callback invoked with `pos`, or the null callback invoked while the
traversal stood at `pos`. -/
inductive Ev where
  | notNull (pos : Nat)
  | isNull (pos : Nat)
deriving DecidableEq, Repr

/-- Position at which an invocation happened. -/
def Ev.pos : Ev → Nat
  | .notNull p => p
  | .isNull p => p

/-- One block of `detail::VisitBitBlocksVoid`: the `AllSet` branch calls
the not-null callback for each position of the block, the `NoneSet`
branch the null callback, and the mixed branch tests each bit.  `vnn i`
(resp. `vn i`) is the record of invoking the not-null (resp. null)
callback while the traversal position is `i`. -/
def visitRunVoid {α : Type} (bitmap : Option (Nat → Bool)) (offset : Nat)
    (vnn vn : Nat → α) (b : BitBlock) (pos : Nat) : List α :=
  if b.allSet then (List.range b.len).map fun i => vnn (pos + i)
  else if b.allClear then (List.range b.len).map fun i => vn (pos + i)
  else (List.range b.len).map fun i =>
    if effBit bitmap (offset + (pos + i)) then vnn (pos + i) else vn (pos + i)

/-- Block loop of `detail::VisitBitBlocksVoid`, starting at traversal
position `pos`. -/
def visitBitBlocksVoidAux {α : Type} (bitmap : Option (Nat → Bool)) (offset : Nat)
    (vnn vn : Nat → α) : List BitBlock → Nat → List α
  | [], _ => []
  | b :: bs, pos =>
    visitRunVoid bitmap offset vnn vn b pos ++
      visitBitBlocksVoidAux bitmap offset vnn vn bs (pos + b.len)

/-- `detail::VisitBitBlocksVoid`: void-form traversal over the blocks
produced for `(bitmap, offset, length)`; returns the invocation list. -/
def VisitBitBlocksVoid {α : Type} (bitmap : Option (Nat → Bool)) (offset : Nat)
    (blocks : List BitBlock) (vnn vn : Nat → α) : List α :=
  visitBitBlocksVoidAux bitmap offset vnn vn blocks 0

/-- Reference bit-by-bit scan: test bit `offset + i` individually for
each `i` below `length`. -/
def refScanVoid {α : Type} (bitmap : Option (Nat → Bool)) (offset : Nat)
    (vnn vn : Nat → α) (length : Nat) : List α :=
  (List.range length).map fun i =>
    if effBit bitmap (offset + i) then vnn i else vn i

/-- Inner loop of a uniform (`AllSet` or `NoneSet`) block of
`detail::VisitBitBlocks`: invoke `call` at each position, recording
`tag pos`, and return early on the first error
(`ARROW_RETURN_NOT_OK`). -/
def statusLoop {α ε : Type} (call : Nat → Except ε Unit) (tag : Nat → α) :
    Nat → Nat → List α × Except ε Unit
  | _, 0 => ([], Except.ok ())
  | pos, n + 1 =>
    match call pos with
    | Except.ok _ =>
      let r := statusLoop call tag (pos + 1) n
      (tag pos :: r.1, r.2)
    | Except.error e => ([tag pos], Except.error e)

/-- Inner loop of a mixed block of `detail::VisitBitBlocks`: test each
bit individually, invoke the corresponding callback, return early on the
first error. -/
def statusLoopMixed {α ε : Type} (bitmap : Option (Nat → Bool)) (offset : Nat)
    (vnn : Nat → Except ε Unit) (vn : Unit → Except ε Unit) (tagN tagU : Nat → α) :
    Nat → Nat → List α × Except ε Unit
  | _, 0 => ([], Except.ok ())
  | pos, n + 1 =>
    if effBit bitmap (offset + pos) then
      match vnn pos with
      | Except.ok _ =>
        let r := statusLoopMixed bitmap offset vnn vn tagN tagU (pos + 1) n
        (tagN pos :: r.1, r.2)
      | Except.error e => ([tagN pos], Except.error e)
    else
      match vn () with
      | Except.ok _ =>
        let r := statusLoopMixed bitmap offset vnn vn tagN tagU (pos + 1) n
        (tagU pos :: r.1, r.2)
      | Except.error e => ([tagU pos], Except.error e)

/-- Block loop of `detail::VisitBitBlocks`: run one block with the
branch selected by its flags, stop at the first error, otherwise
continue with the remaining blocks. -/
def visitBitBlocksAux {α ε : Type} (bitmap : Option (Nat → Bool)) (offset : Nat)
    (vnn : Nat → Except ε Unit) (vn : Unit → Except ε Unit) (tagN tagU : Nat → α) :
    List BitBlock → Nat → List α × Except ε Unit
  | [], _ => ([], Except.ok ())
  | b :: bs, pos =>
    let r :=
      if b.allSet then statusLoop vnn tagN pos b.len
      else if b.allClear then statusLoop (fun _ => vn ()) tagU pos b.len
      else statusLoopMixed bitmap offset vnn vn tagN tagU pos b.len
    match r.2 with
    | Except.ok _ =>
      let r2 := visitBitBlocksAux bitmap offset vnn vn tagN tagU bs (pos + b.len)
      (r.1 ++ r2.1, r2.2)
    | Except.error e => (r.1, Except.error e)

/-- `detail::VisitBitBlocks`: status-form traversal over the blocks
produced for `(bitmap, offset, length)`.  Returns the list of performed
callback invocations (tagged by `tagN` / `tagU`) and the final status. -/
def VisitBitBlocksTagged {α ε : Type} (bitmap : Option (Nat → Bool)) (offset : Nat)
    (blocks : List BitBlock) (vnn : Nat → Except ε Unit) (vn : Unit → Except ε Unit)
    (tagN tagU : Nat → α) : List α × Except ε Unit :=
  visitBitBlocksAux bitmap offset vnn vn tagN tagU blocks 0

/-- `detail::VisitBitBlocks` observed through plain `Ev` events. -/
def VisitBitBlocks {ε : Type} (bitmap : Option (Nat → Bool)) (offset : Nat)
    (blocks : List BitBlock) (vnn : Nat → Except ε Unit) (vn : Unit → Except ε Unit) :
    List Ev × Except ε Unit :=
  VisitBitBlocksTagged bitmap offset blocks vnn vn Ev.notNull Ev.isNull

/-- Reference fail-fast scan: test bit `offset + i` individually for each
`i` in `[pos, pos + n)`, invoking the corresponding callback and stopping
at the first error. -/
def refScanStatus {α ε : Type} (bitmap : Option (Nat → Bool)) (offset : Nat)
    (vnn : Nat → Except ε Unit) (vn : Unit → Except ε Unit) (tagN tagU : Nat → α) :
    Nat → Nat → List α × Except ε Unit
  | _, 0 => ([], Except.ok ())
  | pos, n + 1 =>
    if effBit bitmap (offset + pos) then
      match vnn pos with
      | Except.ok _ =>
        let r := refScanStatus bitmap offset vnn vn tagN tagU (pos + 1) n
        (tagN pos :: r.1, r.2)
      | Except.error e => ([tagN pos], Except.error e)
    else
      match vn () with
      | Except.ok _ =>
        let r := refScanStatus bitmap offset vnn vn tagN tagU (pos + 1) n
        (tagU pos :: r.1, r.2)
      | Except.error e => ([tagU pos], Except.error e)

/-- One block of the void overload of `VisitNullBitmapInline`: the
`AllSet` branch passes `true` for each position, the `NoneSet` branch
`false`, and the mixed branch tests bit `valid_bits_offset + position`
individually (`offset_position` in the source). -/
def nullBitmapRunVoid (validBits : Option (Nat → Bool)) (offset : Nat)
    (b : BitBlock) (pos : Nat) : List Bool :=
  if b.allSet then List.replicate b.len true
  else if b.allClear then List.replicate b.len false
  else (List.range b.len).map fun i => effBit validBits (offset + (pos + i))

/-- Block loop of the void overload of `VisitNullBitmapInline`. -/
def visitNullBitmapVoidAux (validBits : Option (Nat → Bool)) (offset : Nat) :
    List BitBlock → Nat → List Bool
  | [], _ => []
  | b :: bs, pos =>
    nullBitmapRunVoid validBits offset b pos ++
      visitNullBitmapVoidAux validBits offset bs (pos + b.len)

/-- Void overload of `VisitNullBitmapInline`.  `nullCount` is accepted
and discarded (`ARROW_UNUSED(null_count)` in the source); `numValues` is
covered by the block list.  Returns the booleans passed to the
callback, in order. -/
def VisitNullBitmapInlineVoid (validBits : Option (Nat → Bool)) (validBitsOffset : Nat)
    (numValues : Nat) (nullCount : Int) (blocks : List BitBlock) : List Bool :=
  visitNullBitmapVoidAux validBits validBitsOffset blocks 0

/-- Inner loop of a uniform block of the status overload of
`VisitNullBitmapInline`: pass the constant `v`, return early on the
first error. -/
def nbStatusLoop {ε : Type} (func : Bool → Except ε Unit) (v : Bool) :
    Nat → List Bool × Except ε Unit
  | 0 => ([], Except.ok ())
  | n + 1 =>
    match func v with
    | Except.ok _ =>
      let r := nbStatusLoop func v n
      (v :: r.1, r.2)
    | Except.error e => ([v], Except.error e)

/-- Inner loop of a mixed block of the status overload of
`VisitNullBitmapInline`: test each bit individually. -/
def nbStatusLoopMixed {ε : Type} (validBits : Option (Nat → Bool)) (offset : Nat)
    (func : Bool → Except ε Unit) : Nat → Nat → List Bool × Except ε Unit
  | _, 0 => ([], Except.ok ())
  | pos, n + 1 =>
    match func (effBit validBits (offset + pos)) with
    | Except.ok _ =>
      let r := nbStatusLoopMixed validBits offset func (pos + 1) n
      (effBit validBits (offset + pos) :: r.1, r.2)
    | Except.error e => ([effBit validBits (offset + pos)], Except.error e)

/-- Block loop of the status overload of `VisitNullBitmapInline`. -/
def visitNullBitmapStatusAux {ε : Type} (validBits : Option (Nat → Bool)) (offset : Nat)
    (func : Bool → Except ε Unit) : List BitBlock → Nat → List Bool × Except ε Unit
  | [], _ => ([], Except.ok ())
  | b :: bs, pos =>
    let r :=
      if b.allSet then nbStatusLoop func true b.len
      else if b.allClear then nbStatusLoop func false b.len
      else nbStatusLoopMixed validBits offset func pos b.len
    match r.2 with
    | Except.ok _ =>
      let r2 := visitNullBitmapStatusAux validBits offset func bs (pos + b.len)
      (r.1 ++ r2.1, r2.2)
    | Except.error e => (r.1, Except.error e)

/-- Status overload of `VisitNullBitmapInline`.  `nullCount` is accepted
and discarded (`ARROW_UNUSED(null_count)` in the source). -/
def VisitNullBitmapInlineStatus {ε : Type} (validBits : Option (Nat → Bool))
    (validBitsOffset : Nat) (numValues : Nat) (nullCount : Int)
    (blocks : List BitBlock) (func : Bool → Except ε Unit) : List Bool × Except ε Unit :=
  visitNullBitmapStatusAux validBits validBitsOffset func blocks 0

/-- Reference fail-fast validity scan: test each bit individually. -/
def nbRefScanStatus {ε : Type} (validBits : Option (Nat → Bool)) (offset : Nat)
    (func : Bool → Except ε Unit) : Nat → Nat → List Bool × Except ε Unit
  | _, 0 => ([], Except.ok ())
  | pos, n + 1 =>
    match func (effBit validBits (offset + pos)) with
    | Except.ok _ =>
      let r := nbRefScanStatus validBits offset func (pos + 1) n
      (effBit validBits (offset + pos) :: r.1, r.2)
    | Except.error e => ([effBit validBits (offset + pos)], Except.error e)

/-- Base pointer chosen by the variable-length binary adapter for its
value bytes: the array's `buffers[2]`, or the address of the static
`empty_value` byte when `buffers[2]` is absent. -/
inductive BasePtr where
  | dataBuffer
  | staticZero
deriving DecidableEq, Repr

/-- Borrowed byte view `util::string_view(data + start, len)` handed to
a value callback: a base pointer plus a byte range.  `len` is the
`offset_type` difference `offsets[i + 1] - offsets[i]`, hence an
integer. -/
structure ByteView where
  base : BasePtr
  start : Int
  len : Int
deriving DecidableEq, Repr

/-- Callback invocation record of the binary adapters: a value callback
receiving a byte view at `pos`, or the null callback at `pos`. -/
inductive BinEv where
  | val (pos : Nat) (view : ByteView)
  | nul (pos : Nat)
deriving DecidableEq, Repr

/-- Variable-length binary / string `ArrayData`: optional validity
bitmap (`buffers[0]`), the raw offsets buffer (`buffers[1]`, indexed
absolutely — `GetValues<offset_type>(1)` advances it by `offset`
elements), presence of the value-bytes buffer (`buffers[2]`), the
logical `offset` and `length`.  The byte contents of `buffers[2]` never
influence the traversal, so only its presence is modelled. -/
structure BinaryArrayData where
  validity : Option (Nat → Bool)
  offsetsBuf : Nat → Int
  hasDataBuf : Bool
  offset : Nat
  length : Nat

/-- Byte view built by the binary adapter for logical position `i`:
`data + offsets[i]` with length `offsets[i + 1] - offsets[i]`, where
`offsets = GetValues<offset_type>(1)` (so `offsets[i]` reads the raw
buffer at `offset + i`) and `data = GetValues<uint8_t>(2, 0)` — the
value buffer without the array offset applied — or the static zero byte
when `buffers[2]` is absent. -/
def binaryView (arr : BinaryArrayData) (i : Nat) : ByteView :=
  { base := if arr.hasDataBuf then BasePtr.dataBuffer else BasePtr.staticZero
    start := arr.offsetsBuf (arr.offset + i)
    len := arr.offsetsBuf (arr.offset + i + 1) - arr.offsetsBuf (arr.offset + i) }

/-- `ArrayDataInlineVisitor<T, enable_if_base_binary<T>>::VisitVoid`:
void traversal recording, for each invocation, the byte view passed to
the value callback. -/
def binaryVisitVoid (arr : BinaryArrayData) (blocks : List BitBlock) : List BinEv :=
  VisitBitBlocksVoid arr.validity arr.offset blocks
    (fun i => BinEv.val i (binaryView arr i)) (fun i => BinEv.nul i)

/-- `ArrayDataInlineVisitor<T, enable_if_base_binary<T>>::VisitStatus`:
fail-fast traversal; `func` receives `some view` for valid positions and
`none` for nulls. -/
def binaryVisitStatus {ε : Type} (arr : BinaryArrayData) (blocks : List BitBlock)
    (func : Option ByteView → Except ε Unit) : List BinEv × Except ε Unit :=
  VisitBitBlocksTagged arr.validity arr.offset blocks
    (fun i => func (some (binaryView arr i))) (fun _ => func none)
    (fun i => BinEv.val i (binaryView arr i)) (fun i => BinEv.nul i)

/-- Callback invocation record of the fixed-size binary adapter: a value
callback receiving the view `(start, len)` into `buffers[1]`, or the
null callback. -/
inductive FsbEv where
  | val (pos : Nat) (start : Nat) (len : Nat)
  | nul (pos : Nat)
deriving DecidableEq, Repr

/-- Fixed-size binary `ArrayData`: optional validity bitmap, the
element byte width (`FixedSizeBinaryType::byte_width`), the logical
`offset` and `length`.  The data pointer starts at
`GetValues<char>(1, offset * byte_width)`. -/
structure FsbArrayData where
  validity : Option (Nat → Bool)
  byteWidth : Nat
  offset : Nat
  length : Nat

/-- `AllSet` inner loop of the fixed-size binary `VisitVoid`: the value
lambda captures the view `(data, byte_width)` and then advances `data`
by `byte_width`. -/
def fsbLoopSet (w : Nat) : Nat → Nat → Nat → List FsbEv
  | _, _, 0 => []
  | pos, dp, n + 1 => FsbEv.val pos dp w :: fsbLoopSet w (pos + 1) (dp + w) n

/-- `NoneSet` inner loop of the fixed-size binary `VisitVoid`: the null
lambda also advances `data` by `byte_width`. -/
def fsbLoopClear (w : Nat) : Nat → Nat → Nat → List FsbEv
  | _, _, 0 => []
  | pos, dp, n + 1 => FsbEv.nul pos :: fsbLoopClear w (pos + 1) (dp + w) n

/-- Mixed inner loop of the fixed-size binary `VisitVoid`: test each
bit; both lambdas advance `data` by `byte_width`. -/
def fsbLoopMixed (bitmap : Option (Nat → Bool)) (offset w : Nat) :
    Nat → Nat → Nat → List FsbEv
  | _, _, 0 => []
  | pos, dp, n + 1 =>
    (if effBit bitmap (offset + pos) then FsbEv.val pos dp w else FsbEv.nul pos) ::
      fsbLoopMixed bitmap offset w (pos + 1) (dp + w) n

/-- Block loop of the fixed-size binary `VisitVoid`, threading the data
pointer `dp` (in bytes from the start of `buffers[1]`). -/
def fsbVisitVoidAux (bitmap : Option (Nat → Bool)) (offset w : Nat) :
    List BitBlock → Nat → Nat → List FsbEv
  | [], _, _ => []
  | b :: bs, pos, dp =>
    (if b.allSet then fsbLoopSet w pos dp b.len
     else if b.allClear then fsbLoopClear w pos dp b.len
     else fsbLoopMixed bitmap offset w pos dp b.len) ++
      fsbVisitVoidAux bitmap offset w bs (pos + b.len) (dp + b.len * w)

/-- `ArrayDataInlineVisitor<T, enable_if_fixed_size_binary<T>>::VisitVoid`:
the data pointer starts at `arr.offset * byte_width` and is advanced by
`byte_width` inside every callback, null or not. -/
def fsbVisitVoid (arr : FsbArrayData) (blocks : List BitBlock) : List FsbEv :=
  fsbVisitVoidAux arr.validity arr.offset arr.byteWidth blocks 0
    (arr.offset * arr.byteWidth)

/-- `AllSet` inner loop of the fixed-size binary `VisitStatus`: invoke
`func` on `some (view)`, advance `data`, return early on error. -/
def fsbStatusLoopSet {ε : Type} (w : Nat) (func : Option (Nat × Nat) → Except ε Unit) :
    Nat → Nat → Nat → List FsbEv × Except ε Unit
  | _, _, 0 => ([], Except.ok ())
  | pos, dp, n + 1 =>
    match func (some (dp, w)) with
    | Except.ok _ =>
      let r := fsbStatusLoopSet w func (pos + 1) (dp + w) n
      (FsbEv.val pos dp w :: r.1, r.2)
    | Except.error e => ([FsbEv.val pos dp w], Except.error e)

/-- `NoneSet` inner loop of the fixed-size binary `VisitStatus`. -/
def fsbStatusLoopClear {ε : Type} (w : Nat) (func : Option (Nat × Nat) → Except ε Unit) :
    Nat → Nat → Nat → List FsbEv × Except ε Unit
  | _, _, 0 => ([], Except.ok ())
  | pos, dp, n + 1 =>
    match func none with
    | Except.ok _ =>
      let r := fsbStatusLoopClear w func (pos + 1) (dp + w) n
      (FsbEv.nul pos :: r.1, r.2)
    | Except.error e => ([FsbEv.nul pos], Except.error e)

/-- Mixed inner loop of the fixed-size binary `VisitStatus`. -/
def fsbStatusLoopMixed {ε : Type} (bitmap : Option (Nat → Bool)) (offset w : Nat)
    (func : Option (Nat × Nat) → Except ε Unit) :
    Nat → Nat → Nat → List FsbEv × Except ε Unit
  | _, _, 0 => ([], Except.ok ())
  | pos, dp, n + 1 =>
    if effBit bitmap (offset + pos) then
      match func (some (dp, w)) with
      | Except.ok _ =>
        let r := fsbStatusLoopMixed bitmap offset w func (pos + 1) (dp + w) n
        (FsbEv.val pos dp w :: r.1, r.2)
      | Except.error e => ([FsbEv.val pos dp w], Except.error e)
    else
      match func none with
      | Except.ok _ =>
        let r := fsbStatusLoopMixed bitmap offset w func (pos + 1) (dp + w) n
        (FsbEv.nul pos :: r.1, r.2)
      | Except.error e => ([FsbEv.nul pos], Except.error e)

/-- Block loop of the fixed-size binary `VisitStatus`. -/
def fsbVisitStatusAux {ε : Type} (bitmap : Option (Nat → Bool)) (offset w : Nat)
    (func : Option (Nat × Nat) → Except ε Unit) :
    List BitBlock → Nat → Nat → List FsbEv × Except ε Unit
  | [], _, _ => ([], Except.ok ())
  | b :: bs, pos, dp =>
    let r :=
      if b.allSet then fsbStatusLoopSet w func pos dp b.len
      else if b.allClear then fsbStatusLoopClear w func pos dp b.len
      else fsbStatusLoopMixed bitmap offset w func pos dp b.len
    match r.2 with
    | Except.ok _ =>
      let r2 := fsbVisitStatusAux bitmap offset w func bs (pos + b.len) (dp + b.len * w)
      (r.1 ++ r2.1, r2.2)
    | Except.error e => (r.1, Except.error e)

/-- `ArrayDataInlineVisitor<T, enable_if_fixed_size_binary<T>>::VisitStatus`. -/
def fsbVisitStatus {ε : Type} (arr : FsbArrayData) (blocks : List BitBlock)
    (func : Option (Nat × Nat) → Except ε Unit) : List FsbEv × Except ε Unit :=
  fsbVisitStatusAux arr.validity arr.offset arr.byteWidth func blocks 0
    (arr.offset * arr.byteWidth)

/-- `ArrayDataInlineVisitor<T, enable_if_has_c_type<T>>::VisitStatus`:
the generic `c_type` adapter; `value i` models `data[i]` with
`data = GetValues<c_type>(1)`.  `func` receives `some (value i)` at
valid positions and `none` at nulls. -/
def inlineVisitStatus {c ε : Type} (bitmap : Option (Nat → Bool)) (offset : Nat)
    (blocks : List BitBlock) (value : Nat → c) (func : Option c → Except ε Unit) :
    List Ev × Except ε Unit :=
  VisitBitBlocks bitmap offset blocks
    (fun i => func (some (value i))) (fun _ => func none)

/-- `ArrayDataVisitor<T>::Visit`: wraps a dual-method visitor
(`VisitNull` / `VisitValue`) into the single optional-accepting callback
and runs `VisitStatus`. -/
def arrayDataVisitorVisit {c ε : Type} (bitmap : Option (Nat → Bool)) (offset : Nat)
    (blocks : List BitBlock) (value : Nat → c)
    (visitNullM : Unit → Except ε Unit) (visitValueM : c → Except ε Unit) :
    List Ev × Except ε Unit :=
  inlineVisitStatus bitmap offset blocks value fun v =>
    match v with
    | some x => visitValueM x
    | none => visitNullM ()

/-- Modelled from the spec: the optional-value callback that re-expresses
a dual-method visitor, mapping an empty optional to `VisitNull()` and a
non-empty optional `v` to `VisitValue(*v)` (spec §4.6). -/
def specDualCallback {c ε : Type} (visitNullM : Unit → Except ε Unit)
    (visitValueM : c → Except ε Unit) : Option c → Except ε Unit :=
  fun v =>
    match v with
    | some x => visitValueM x
    | none => visitNullM ()

/-- Runtime type tag.  The 36 named constructors are the members of
`ARROW_GENERATE_FOR_ALL_TYPES`, i.e. the cases of each dispatcher's
switch; `unrecognized c` stands for any other `Type::type` value
(reserved for forward compatibility), which falls into the switch's
`default` branch. -/
inductive TypeId where
  | Null
  | Boolean
  | Int8
  | UInt8
  | Int16
  | UInt16
  | Int32
  | UInt32
  | Int64
  | UInt64
  | HalfFloat
  | Float
  | Double
  | String
  | Binary
  | LargeString
  | LargeBinary
  | FixedSizeBinary
  | Duration
  | Date32
  | Date64
  | Timestamp
  | Time32
  | Time64
  | MonthInterval
  | DayTimeInterval
  | Decimal128
  | List
  | LargeList
  | Map
  | FixedSizeList
  | Struct
  | SparseUnion
  | DenseUnion
  | Dictionary
  | Extension
  | unrecognized (code : Nat)
deriving DecidableEq, Repr

/-- Result of a dispatcher or of a visitor method (`arrow::Status`):
success, the distinguished not-implemented error, or any other error a
visitor may report. -/
inductive AStatus where
  | OK
  | NotImplemented (msg : String)
  | Err (msg : String)
deriving DecidableEq, Repr

/-- Whether a status is the distinguished "not implemented" error. -/
def AStatus.isNotImplemented : AStatus → Bool
  | .NotImplemented _ => true
  | _ => false

/-- `VisitTypeInline`: switch on `type.id()`; each recognized tag invokes
the visitor's method for that concrete type (the invocation is recorded
in the returned list), the `default` branch invokes nothing and returns
`Status::NotImplemented("Type not implemented")`. -/
def VisitTypeInline (t : TypeId) (visitor : TypeId → AStatus) : List TypeId × AStatus :=
  match t with
  | .Null => ([TypeId.Null], visitor TypeId.Null)
  | .Boolean => ([TypeId.Boolean], visitor TypeId.Boolean)
  | .Int8 => ([TypeId.Int8], visitor TypeId.Int8)
  | .UInt8 => ([TypeId.UInt8], visitor TypeId.UInt8)
  | .Int16 => ([TypeId.Int16], visitor TypeId.Int16)
  | .UInt16 => ([TypeId.UInt16], visitor TypeId.UInt16)
  | .Int32 => ([TypeId.Int32], visitor TypeId.Int32)
  | .UInt32 => ([TypeId.UInt32], visitor TypeId.UInt32)
  | .Int64 => ([TypeId.Int64], visitor TypeId.Int64)
  | .UInt64 => ([TypeId.UInt64], visitor TypeId.UInt64)
  | .HalfFloat => ([TypeId.HalfFloat], visitor TypeId.HalfFloat)
  | .Float => ([TypeId.Float], visitor TypeId.Float)
  | .Double => ([TypeId.Double], visitor TypeId.Double)
  | .String => ([TypeId.String], visitor TypeId.String)
  | .Binary => ([TypeId.Binary], visitor TypeId.Binary)
  | .LargeString => ([TypeId.LargeString], visitor TypeId.LargeString)
  | .LargeBinary => ([TypeId.LargeBinary], visitor TypeId.LargeBinary)
  | .FixedSizeBinary => ([TypeId.FixedSizeBinary], visitor TypeId.FixedSizeBinary)
  | .Duration => ([TypeId.Duration], visitor TypeId.Duration)
  | .Date32 => ([TypeId.Date32], visitor TypeId.Date32)
  | .Date64 => ([TypeId.Date64], visitor TypeId.Date64)
  | .Timestamp => ([TypeId.Timestamp], visitor TypeId.Timestamp)
  | .Time32 => ([TypeId.Time32], visitor TypeId.Time32)
  | .Time64 => ([TypeId.Time64], visitor TypeId.Time64)
  | .MonthInterval => ([TypeId.MonthInterval], visitor TypeId.MonthInterval)
  | .DayTimeInterval => ([TypeId.DayTimeInterval], visitor TypeId.DayTimeInterval)
  | .Decimal128 => ([TypeId.Decimal128], visitor TypeId.Decimal128)
  | .List => ([TypeId.List], visitor TypeId.List)
  | .LargeList => ([TypeId.LargeList], visitor TypeId.LargeList)
  | .Map => ([TypeId.Map], visitor TypeId.Map)
  | .FixedSizeList => ([TypeId.FixedSizeList], visitor TypeId.FixedSizeList)
  | .Struct => ([TypeId.Struct], visitor TypeId.Struct)
  | .SparseUnion => ([TypeId.SparseUnion], visitor TypeId.SparseUnion)
  | .DenseUnion => ([TypeId.DenseUnion], visitor TypeId.DenseUnion)
  | .Dictionary => ([TypeId.Dictionary], visitor TypeId.Dictionary)
  | .Extension => ([TypeId.Extension], visitor TypeId.Extension)
  | .unrecognized _ => ([], AStatus.NotImplemented "Type not implemented")

/-- `VisitArrayInline`: switch on `array.type_id()`; each recognized tag
invokes the visitor's method for that concrete array type, the `default`
branch invokes nothing and returns
`Status::NotImplemented("Type not implemented")`. -/
def VisitArrayInline (t : TypeId) (visitor : TypeId → AStatus) : List TypeId × AStatus :=
  match t with
  | .Null => ([TypeId.Null], visitor TypeId.Null)
  | .Boolean => ([TypeId.Boolean], visitor TypeId.Boolean)
  | .Int8 => ([TypeId.Int8], visitor TypeId.Int8)
  | .UInt8 => ([TypeId.UInt8], visitor TypeId.UInt8)
  | .Int16 => ([TypeId.Int16], visitor TypeId.Int16)
  | .UInt16 => ([TypeId.UInt16], visitor TypeId.UInt16)
  | .Int32 => ([TypeId.Int32], visitor TypeId.Int32)
  | .UInt32 => ([TypeId.UInt32], visitor TypeId.UInt32)
  | .Int64 => ([TypeId.Int64], visitor TypeId.Int64)
  | .UInt64 => ([TypeId.UInt64], visitor TypeId.UInt64)
  | .HalfFloat => ([TypeId.HalfFloat], visitor TypeId.HalfFloat)
  | .Float => ([TypeId.Float], visitor TypeId.Float)
  | .Double => ([TypeId.Double], visitor TypeId.Double)
  | .String => ([TypeId.String], visitor TypeId.String)
  | .Binary => ([TypeId.Binary], visitor TypeId.Binary)
  | .LargeString => ([TypeId.LargeString], visitor TypeId.LargeString)
  | .LargeBinary => ([TypeId.LargeBinary], visitor TypeId.LargeBinary)
  | .FixedSizeBinary => ([TypeId.FixedSizeBinary], visitor TypeId.FixedSizeBinary)
  | .Duration => ([TypeId.Duration], visitor TypeId.Duration)
  | .Date32 => ([TypeId.Date32], visitor TypeId.Date32)
  | .Date64 => ([TypeId.Date64], visitor TypeId.Date64)
  | .Timestamp => ([TypeId.Timestamp], visitor TypeId.Timestamp)
  | .Time32 => ([TypeId.Time32], visitor TypeId.Time32)
  | .Time64 => ([TypeId.Time64], visitor TypeId.Time64)
  | .MonthInterval => ([TypeId.MonthInterval], visitor TypeId.MonthInterval)
  | .DayTimeInterval => ([TypeId.DayTimeInterval], visitor TypeId.DayTimeInterval)
  | .Decimal128 => ([TypeId.Decimal128], visitor TypeId.Decimal128)
  | .List => ([TypeId.List], visitor TypeId.List)
  | .LargeList => ([TypeId.LargeList], visitor TypeId.LargeList)
  | .Map => ([TypeId.Map], visitor TypeId.Map)
  | .FixedSizeList => ([TypeId.FixedSizeList], visitor TypeId.FixedSizeList)
  | .Struct => ([TypeId.Struct], visitor TypeId.Struct)
  | .SparseUnion => ([TypeId.SparseUnion], visitor TypeId.SparseUnion)
  | .DenseUnion => ([TypeId.DenseUnion], visitor TypeId.DenseUnion)
  | .Dictionary => ([TypeId.Dictionary], visitor TypeId.Dictionary)
  | .Extension => ([TypeId.Extension], visitor TypeId.Extension)
  | .unrecognized _ => ([], AStatus.NotImplemented "Type not implemented")

/-- `VisitScalarInline`: switch on `scalar.type->id()`; each recognized
tag invokes the visitor's method for that concrete scalar type, the
`default` branch invokes nothing and returns
`Status::NotImplemented("Scalar visitor for type not implemented ",
scalar.type->ToString())`. -/
def VisitScalarInline (t : TypeId) (visitor : TypeId → AStatus) : List TypeId × AStatus :=
  match t with
  | .Null => ([TypeId.Null], visitor TypeId.Null)
  | .Boolean => ([TypeId.Boolean], visitor TypeId.Boolean)
  | .Int8 => ([TypeId.Int8], visitor TypeId.Int8)
  | .UInt8 => ([TypeId.UInt8], visitor TypeId.UInt8)
  | .Int16 => ([TypeId.Int16], visitor TypeId.Int16)
  | .UInt16 => ([TypeId.UInt16], visitor TypeId.UInt16)
  | .Int32 => ([TypeId.Int32], visitor TypeId.Int32)
  | .UInt32 => ([TypeId.UInt32], visitor TypeId.UInt32)
  | .Int64 => ([TypeId.Int64], visitor TypeId.Int64)
  | .UInt64 => ([TypeId.UInt64], visitor TypeId.UInt64)
  | .HalfFloat => ([TypeId.HalfFloat], visitor TypeId.HalfFloat)
  | .Float => ([TypeId.Float], visitor TypeId.Float)
  | .Double => ([TypeId.Double], visitor TypeId.Double)
  | .String => ([TypeId.String], visitor TypeId.String)
  | .Binary => ([TypeId.Binary], visitor TypeId.Binary)
  | .LargeString => ([TypeId.LargeString], visitor TypeId.LargeString)
  | .LargeBinary => ([TypeId.LargeBinary], visitor TypeId.LargeBinary)
  | .FixedSizeBinary => ([TypeId.FixedSizeBinary], visitor TypeId.FixedSizeBinary)
  | .Duration => ([TypeId.Duration], visitor TypeId.Duration)
  | .Date32 => ([TypeId.Date32], visitor TypeId.Date32)
  | .Date64 => ([TypeId.Date64], visitor TypeId.Date64)
  | .Timestamp => ([TypeId.Timestamp], visitor TypeId.Timestamp)
  | .Time32 => ([TypeId.Time32], visitor TypeId.Time32)
  | .Time64 => ([TypeId.Time64], visitor TypeId.Time64)
  | .MonthInterval => ([TypeId.MonthInterval], visitor TypeId.MonthInterval)
  | .DayTimeInterval => ([TypeId.DayTimeInterval], visitor TypeId.DayTimeInterval)
  | .Decimal128 => ([TypeId.Decimal128], visitor TypeId.Decimal128)
  | .List => ([TypeId.List], visitor TypeId.List)
  | .LargeList => ([TypeId.LargeList], visitor TypeId.LargeList)
  | .Map => ([TypeId.Map], visitor TypeId.Map)
  | .FixedSizeList => ([TypeId.FixedSizeList], visitor TypeId.FixedSizeList)
  | .Struct => ([TypeId.Struct], visitor TypeId.Struct)
  | .SparseUnion => ([TypeId.SparseUnion], visitor TypeId.SparseUnion)
  | .DenseUnion => ([TypeId.DenseUnion], visitor TypeId.DenseUnion)
  | .Dictionary => ([TypeId.Dictionary], visitor TypeId.Dictionary)
  | .Extension => ([TypeId.Extension], visitor TypeId.Extension)
  | .unrecognized c =>
    ([], AStatus.NotImplemented ("Scalar visitor for type not implemented " ++ toString c))

instance {ε α : Type} [DecidableEq ε] [DecidableEq α] : DecidableEq (Except ε α) :=
  fun a b =>
    match a, b with
    | Except.ok x, Except.ok y =>
      if h : x = y then isTrue (by rw [h])
      else isFalse (by intro hc; injection hc with h2; exact h h2)
    | Except.ok _, Except.error _ => isFalse (by intro hc; exact Except.noConfusion hc)
    | Except.error _, Except.ok _ => isFalse (by intro hc; exact Except.noConfusion hc)
    | Except.error x, Except.error y =>
      if h : x = y then isTrue (by rw [h])
      else isFalse (by intro hc; injection hc with h2; exact h h2)

instance (blocks : List BitBlock) (L : Nat) : Decidable (blocksCover blocks L) :=
  decidable_of_iff (sumLen blocks = L) Iff.rfl

/-- Splitting a well-formed block list. -/
lemma blocksOkB_cons {bm : Option (Nat → Bool)} {off start : Nat} {b : BitBlock}
    {bs : List BitBlock} (h : blocksOkB bm off start (b :: bs) = true) :
    blockOkB bm off start b = true ∧ blocksOkB bm off (start + b.len) bs = true := by
  simpa [blocksOkB, Bool.and_eq_true] using h

/-- An all-set block covers only set bits. -/
lemma blockOkB_allSet {bm : Option (Nat → Bool)} {off start : Nat} {b : BitBlock}
    (h : blockOkB bm off start b = true) (hs : b.allSet = true) :
    ∀ j, start ≤ j → j < start + b.len → effBit bm (off + j) = true := by
  intro j h1 h2
  simp only [blockOkB, Bool.and_eq_true, Bool.or_eq_true, Bool.not_eq_true',
    List.all_eq_true, List.mem_range] at h
  rcases h.1 with h3 | h3
  · rw [hs] at h3; cases h3
  · have h4 := h3 (j - start) (by omega)
    have h5 : start + (j - start) = j := by omega
    rw [h5] at h4
    exact h4

/-- An all-clear block covers only clear bits. -/
lemma blockOkB_allClear {bm : Option (Nat → Bool)} {off start : Nat} {b : BitBlock}
    (h : blockOkB bm off start b = true) (hc : b.allClear = true) :
    ∀ j, start ≤ j → j < start + b.len → effBit bm (off + j) = false := by
  intro j h1 h2
  simp only [blockOkB, Bool.and_eq_true, Bool.or_eq_true, Bool.not_eq_true',
    List.all_eq_true, List.mem_range] at h
  rcases h.2.1 with h3 | h3
  · rw [hc] at h3; cases h3
  · have h4 := h3 (j - start) (by omega)
    have h5 : start + (j - start) = j := by omega
    rw [h5] at h4
    exact h4

/-- One well-formed block behaves like the bit-by-bit reference on its
span. -/
lemma visitRunVoid_eq {α : Type} {bm : Option (Nat → Bool)} {off : Nat}
    (vnn vn : Nat → α) {b : BitBlock} {pos : Nat}
    (h : blockOkB bm off pos b = true) :
    visitRunVoid bm off vnn vn b pos =
      (List.range b.len).map fun i =>
        if effBit bm (off + (pos + i)) then vnn (pos + i) else vn (pos + i) := by
  by_cases hs : b.allSet = true
  · simp only [visitRunVoid, hs, if_true]
    refine List.map_congr_left ?_
    intro i hi
    rw [List.mem_range] at hi
    rw [blockOkB_allSet h hs (pos + i) (by omega) (by omega)]
    simp
  · by_cases hc : b.allClear = true
    · simp only [visitRunVoid, hs, hc, if_true, if_false, Bool.false_eq_true]
      refine List.map_congr_left ?_
      intro i hi
      rw [List.mem_range] at hi
      rw [blockOkB_allClear h hc (pos + i) (by omega) (by omega)]
      simp
    · simp only [visitRunVoid, hs, hc, if_false, Bool.false_eq_true]

/-- The void engine over well-formed blocks equals the bit-by-bit
reference on the covered span. -/
lemma visitBitBlocksVoidAux_eq {α : Type} {bm : Option (Nat → Bool)} {off : Nat}
    (vnn vn : Nat → α) :
    ∀ (blocks : List BitBlock) (pos : Nat), blocksOkB bm off pos blocks = true →
      visitBitBlocksVoidAux bm off vnn vn blocks pos =
        (List.range (sumLen blocks)).map fun i =>
          if effBit bm (off + (pos + i)) then vnn (pos + i) else vn (pos + i) := by
  intro blocks
  induction blocks with
  | nil => intro pos _; simp [visitBitBlocksVoidAux, sumLen]
  | cons b bs ih =>
    intro pos h
    rcases blocksOkB_cons h with ⟨h1, h2⟩
    have hsum : sumLen (b :: bs) = b.len + sumLen bs := by
      simp [sumLen]
    rw [visitBitBlocksVoidAux, visitRunVoid_eq vnn vn h1, ih (pos + b.len) h2,
      hsum, List.range_add, List.map_append, List.map_map]
    congr 1
    refine List.map_congr_left ?_
    intro i _
    have h3 : pos + b.len + i = pos + (b.len + i) := by omega
    simp only [Function.comp, h3]

/-- `detail::VisitBitBlocksVoid` over any well-formed covering block
list is the bit-by-bit reference scan. -/
lemma VisitBitBlocksVoid_eq_refScan {α : Type} {bm : Option (Nat → Bool)} {off L : Nat}
    {blocks : List BitBlock} (vnn vn : Nat → α)
    (hOk : blocksOkB bm off 0 blocks = true) (hCov : blocksCover blocks L) :
    VisitBitBlocksVoid bm off blocks vnn vn = refScanVoid bm off vnn vn L := by
  rw [VisitBitBlocksVoid, visitBitBlocksVoidAux_eq vnn vn blocks 0 hOk,
    refScanVoid, hCov]
  refine List.map_congr_left ?_
  intro i _
  simp

/-- Whatever the block flags say, one block's invocations stand at
consecutive positions. -/
lemma visitRunVoid_map_pos (bm : Option (Nat → Bool)) (off : Nat) (b : BitBlock)
    (pos : Nat) :
    (visitRunVoid bm off Ev.notNull Ev.isNull b pos).map Ev.pos =
      (List.range b.len).map fun i => pos + i := by
  by_cases hs : b.allSet = true
  · simp [visitRunVoid, hs, List.map_map, Function.comp, Ev.pos]
  · by_cases hc : b.allClear = true
    · simp [visitRunVoid, hs, hc, List.map_map, Function.comp, Ev.pos]
    · simp only [visitRunVoid, hs, hc, if_false, Bool.false_eq_true, List.map_map]
      refine List.map_congr_left ?_
      intro i _
      by_cases hb : effBit bm (off + (pos + i)) = true <;> simp [Function.comp, hb, Ev.pos]

/-- The void engine visits consecutive positions, one invocation per
position, regardless of the bitmap and the block flags. -/
lemma visitBitBlocksVoidAux_map_pos (bm : Option (Nat → Bool)) (off : Nat) :
    ∀ (blocks : List BitBlock) (pos : Nat),
      (visitBitBlocksVoidAux bm off Ev.notNull Ev.isNull blocks pos).map Ev.pos =
        (List.range (sumLen blocks)).map fun i => pos + i := by
  intro blocks
  induction blocks with
  | nil => intro pos; simp [visitBitBlocksVoidAux, sumLen]
  | cons b bs ih =>
    intro pos
    have hsum : sumLen (b :: bs) = b.len + sumLen bs := by simp [sumLen]
    rw [visitBitBlocksVoidAux, List.map_append, visitRunVoid_map_pos, ih (pos + b.len),
      hsum, List.range_add, List.map_append, List.map_map]
    congr 1
    refine List.map_congr_left ?_
    intro i _
    have h3 : pos + b.len + i = pos + (b.len + i) := by omega
    simp only [Function.comp, h3]

/-- The mixed-block inner loop is the bit-by-bit reference scan. -/
lemma statusLoopMixed_eq_refScan {α ε : Type} (bm : Option (Nat → Bool)) (off : Nat)
    (vnn : Nat → Except ε Unit) (vn : Unit → Except ε Unit) (tagN tagU : Nat → α) :
    ∀ (n pos : Nat), statusLoopMixed bm off vnn vn tagN tagU pos n =
      refScanStatus bm off vnn vn tagN tagU pos n := by
  intro n
  induction n with
  | zero => intro pos; rfl
  | succ n ih =>
    intro pos
    simp only [statusLoopMixed, refScanStatus, ih (pos + 1)]

/-- An all-set inner loop agrees with the bit-by-bit reference on a span
of set bits. -/
lemma statusLoop_set_eq_refScan {α ε : Type} {bm : Option (Nat → Bool)} {off : Nat}
    (vnn : Nat → Except ε Unit) (vn : Unit → Except ε Unit) (tagN tagU : Nat → α) :
    ∀ (n pos : Nat), (∀ j, pos ≤ j → j < pos + n → effBit bm (off + j) = true) →
      statusLoop vnn tagN pos n = refScanStatus bm off vnn vn tagN tagU pos n := by
  intro n
  induction n with
  | zero => intro pos _; rfl
  | succ n ih =>
    intro pos h
    have h0 : effBit bm (off + pos) = true := h pos (Nat.le_refl pos) (by omega)
    simp only [statusLoop, refScanStatus, h0, if_true]
    cases hv : vnn pos with
    | ok u => simp only [ih (pos + 1) fun j h1 h2 => h j (by omega) (by omega)]
    | error e => rfl

/-- An all-clear inner loop agrees with the bit-by-bit reference on a
span of clear bits. -/
lemma statusLoop_clear_eq_refScan {α ε : Type} {bm : Option (Nat → Bool)} {off : Nat}
    (vnn : Nat → Except ε Unit) (vn : Unit → Except ε Unit) (tagN tagU : Nat → α) :
    ∀ (n pos : Nat), (∀ j, pos ≤ j → j < pos + n → effBit bm (off + j) = false) →
      statusLoop (fun _ => vn ()) tagU pos n = refScanStatus bm off vnn vn tagN tagU pos n := by
  intro n
  induction n with
  | zero => intro pos _; rfl
  | succ n ih =>
    intro pos h
    have h0 : effBit bm (off + pos) = false := h pos (Nat.le_refl pos) (by omega)
    have ih2 := ih (pos + 1) fun j h1 h2 => h j (by omega) (by omega)
    simp only [statusLoop, refScanStatus, h0, if_false, Bool.false_eq_true, ih2]

/-- Splitting the bit-by-bit reference scan at an intermediate point. -/
lemma refScanStatus_add {α ε : Type} (bm : Option (Nat → Bool)) (off : Nat)
    (vnn : Nat → Except ε Unit) (vn : Unit → Except ε Unit) (tagN tagU : Nat → α) :
    ∀ (m pos n : Nat), refScanStatus bm off vnn vn tagN tagU pos (m + n) =
      match (refScanStatus bm off vnn vn tagN tagU pos m).2 with
      | Except.ok _ =>
        ((refScanStatus bm off vnn vn tagN tagU pos m).1 ++
          (refScanStatus bm off vnn vn tagN tagU (pos + m) n).1,
         (refScanStatus bm off vnn vn tagN tagU (pos + m) n).2)
      | Except.error e => ((refScanStatus bm off vnn vn tagN tagU pos m).1, Except.error e) := by
  intro m
  induction m with
  | zero => intro pos n; simp [refScanStatus]
  | succ m ih =>
    intro pos n
    have hmn : m + 1 + n = (m + n) + 1 := by omega
    have hpm : pos + 1 + m = pos + (m + 1) := by omega
    rw [hmn]
    by_cases hb : effBit bm (off + pos) = true
    · simp only [refScanStatus, hb, if_true]
      cases hv : vnn pos with
      | ok u =>
        simp only [ih (pos + 1) n, hpm]
        cases hs : (refScanStatus bm off vnn vn tagN tagU (pos + 1) m).2 <;> simp
      | error e => simp
    · simp only [refScanStatus, hb, if_false, Bool.false_eq_true]
      cases hv : vn () with
      | ok u =>
        simp only [ih (pos + 1) n, hpm]
        cases hs : (refScanStatus bm off vnn vn tagN tagU (pos + 1) m).2 <;> simp
      | error e => simp

/-- One well-formed block of the status engine behaves like the
bit-by-bit reference on its span. -/
lemma statusRun_eq_refScan {α ε : Type} {bm : Option (Nat → Bool)} {off : Nat}
    (vnn : Nat → Except ε Unit) (vn : Unit → Except ε Unit) (tagN tagU : Nat → α)
    {b : BitBlock} {pos : Nat} (h : blockOkB bm off pos b = true) :
    (if b.allSet then statusLoop vnn tagN pos b.len
     else if b.allClear then statusLoop (fun _ => vn ()) tagU pos b.len
     else statusLoopMixed bm off vnn vn tagN tagU pos b.len) =
      refScanStatus bm off vnn vn tagN tagU pos b.len := by
  by_cases hs : b.allSet = true
  · simp only [hs, if_true]
    exact statusLoop_set_eq_refScan vnn vn tagN tagU b.len pos
      (blockOkB_allSet h hs)
  · by_cases hc : b.allClear = true
    · simp only [hs, hc, if_true, if_false, Bool.false_eq_true]
      exact statusLoop_clear_eq_refScan vnn vn tagN tagU b.len pos
        (blockOkB_allClear h hc)
    · simp only [hs, hc, if_false, Bool.false_eq_true]
      exact statusLoopMixed_eq_refScan bm off vnn vn tagN tagU b.len pos

/-- The status engine over well-formed blocks equals the bit-by-bit
reference on the covered span. -/
lemma visitBitBlocksAux_eq_refScan {α ε : Type} {bm : Option (Nat → Bool)} {off : Nat}
    (vnn : Nat → Except ε Unit) (vn : Unit → Except ε Unit) (tagN tagU : Nat → α) :
    ∀ (blocks : List BitBlock) (pos : Nat), blocksOkB bm off pos blocks = true →
      visitBitBlocksAux bm off vnn vn tagN tagU blocks pos =
        refScanStatus bm off vnn vn tagN tagU pos (sumLen blocks) := by
  intro blocks
  induction blocks with
  | nil => intro pos _; simp [visitBitBlocksAux, sumLen, refScanStatus]
  | cons b bs ih =>
    intro pos h
    rcases blocksOkB_cons h with ⟨h1, h2⟩
    have hsum : sumLen (b :: bs) = b.len + sumLen bs := by simp [sumLen]
    rw [hsum, refScanStatus_add bm off vnn vn tagN tagU b.len pos (sumLen bs)]
    simp only [visitBitBlocksAux, statusRun_eq_refScan vnn vn tagN tagU h1,
      ih (pos + b.len) h2]

/-- `detail::VisitBitBlocks` over any well-formed covering block list is
the bit-by-bit fail-fast reference scan. -/
lemma VisitBitBlocksTagged_eq_refScan {α ε : Type} {bm : Option (Nat → Bool)}
    {off L : Nat} {blocks : List BitBlock} (vnn : Nat → Except ε Unit)
    (vn : Unit → Except ε Unit) (tagN tagU : Nat → α)
    (hOk : blocksOkB bm off 0 blocks = true) (hCov : blocksCover blocks L) :
    VisitBitBlocksTagged bm off blocks vnn vn tagN tagU =
      refScanStatus bm off vnn vn tagN tagU 0 L := by
  rw [VisitBitBlocksTagged, visitBitBlocksAux_eq_refScan vnn vn tagN tagU blocks 0 hOk,
    hCov]

/-- The mixed-block inner loop of the status `VisitNullBitmapInline` is
the bit-by-bit reference scan. -/
lemma nbStatusLoopMixed_eq_refScan {ε : Type} (vb : Option (Nat → Bool)) (off : Nat)
    (func : Bool → Except ε Unit) :
    ∀ (n pos : Nat), nbStatusLoopMixed vb off func pos n =
      nbRefScanStatus vb off func pos n := by
  intro n
  induction n with
  | zero => intro pos; rfl
  | succ n ih =>
    intro pos
    simp only [nbStatusLoopMixed, nbRefScanStatus, ih (pos + 1)]

/-- A uniform inner loop of the status `VisitNullBitmapInline` agrees
with the bit-by-bit reference on a span of constant bits. -/
lemma nbStatusLoop_eq_refScan {ε : Type} {vb : Option (Nat → Bool)} {off : Nat}
    (func : Bool → Except ε Unit) (v : Bool) :
    ∀ (n pos : Nat), (∀ j, pos ≤ j → j < pos + n → effBit vb (off + j) = v) →
      nbStatusLoop func v n = nbRefScanStatus vb off func pos n := by
  intro n
  induction n with
  | zero => intro pos _; rfl
  | succ n ih =>
    intro pos h
    have h0 : effBit vb (off + pos) = v := h pos (Nat.le_refl pos) (by omega)
    have ih2 := ih (pos + 1) fun j h1 h2 => h j (by omega) (by omega)
    simp only [nbStatusLoop, nbRefScanStatus, h0, ih2]

/-- Splitting the bit-by-bit validity reference scan. -/
lemma nbRefScanStatus_add {ε : Type} (vb : Option (Nat → Bool)) (off : Nat)
    (func : Bool → Except ε Unit) :
    ∀ (m pos n : Nat), nbRefScanStatus vb off func pos (m + n) =
      match (nbRefScanStatus vb off func pos m).2 with
      | Except.ok _ =>
        ((nbRefScanStatus vb off func pos m).1 ++
          (nbRefScanStatus vb off func (pos + m) n).1,
         (nbRefScanStatus vb off func (pos + m) n).2)
      | Except.error e => ((nbRefScanStatus vb off func pos m).1, Except.error e) := by
  intro m
  induction m with
  | zero => intro pos n; simp [nbRefScanStatus]
  | succ m ih =>
    intro pos n
    have hmn : m + 1 + n = (m + n) + 1 := by omega
    have hpm : pos + 1 + m = pos + (m + 1) := by omega
    rw [hmn]
    simp only [nbRefScanStatus]
    cases hv : func (effBit vb (off + pos)) with
    | ok u =>
      simp only [ih (pos + 1) n, hpm]
      cases hs : (nbRefScanStatus vb off func (pos + 1) m).2 <;> simp
    | error e => simp

/-- The status `VisitNullBitmapInline` block loop over well-formed
blocks equals the bit-by-bit reference. -/
lemma visitNullBitmapStatusAux_eq_refScan {ε : Type} {vb : Option (Nat → Bool)}
    {off : Nat} (func : Bool → Except ε Unit) :
    ∀ (blocks : List BitBlock) (pos : Nat), blocksOkB vb off pos blocks = true →
      visitNullBitmapStatusAux vb off func blocks pos =
        nbRefScanStatus vb off func pos (sumLen blocks) := by
  intro blocks
  induction blocks with
  | nil => intro pos _; simp [visitNullBitmapStatusAux, sumLen, nbRefScanStatus]
  | cons b bs ih =>
    intro pos h
    rcases blocksOkB_cons h with ⟨h1, h2⟩
    have hsum : sumLen (b :: bs) = b.len + sumLen bs := by simp [sumLen]
    have hrun :
        (if b.allSet then nbStatusLoop func true b.len
         else if b.allClear then nbStatusLoop func false b.len
         else nbStatusLoopMixed vb off func pos b.len) =
          nbRefScanStatus vb off func pos b.len := by
      by_cases hs : b.allSet = true
      · simp only [hs, if_true]
        exact nbStatusLoop_eq_refScan func true b.len pos (blockOkB_allSet h1 hs)
      · by_cases hc : b.allClear = true
        · simp only [hs, hc, if_true, if_false, Bool.false_eq_true]
          exact nbStatusLoop_eq_refScan func false b.len pos (blockOkB_allClear h1 hc)
        · simp only [hs, hc, if_false, Bool.false_eq_true]
          exact nbStatusLoopMixed_eq_refScan vb off func b.len pos
    rw [hsum, nbRefScanStatus_add vb off func b.len pos (sumLen bs)]
    simp only [visitNullBitmapStatusAux, hrun, ih (pos + b.len) h2]

/-- Status `VisitNullBitmapInline` over any well-formed covering block
list is the bit-by-bit fail-fast reference scan. -/
lemma VisitNullBitmapInlineStatus_eq_refScan {ε : Type} {vb : Option (Nat → Bool)}
    {off L : Nat} {blocks : List BitBlock} (nc : Int) (func : Bool → Except ε Unit)
    (hOk : blocksOkB vb off 0 blocks = true) (hCov : blocksCover blocks L) :
    VisitNullBitmapInlineStatus vb off L nc blocks func =
      nbRefScanStatus vb off func 0 L := by
  rw [VisitNullBitmapInlineStatus,
    visitNullBitmapStatusAux_eq_refScan func blocks 0 hOk, hCov]

/-- One well-formed block of the void `VisitNullBitmapInline` behaves
like the bit-by-bit reference on its span. -/
lemma nullBitmapRunVoid_eq {vb : Option (Nat → Bool)} {off : Nat} {b : BitBlock}
    {pos : Nat} (h : blockOkB vb off pos b = true) :
    nullBitmapRunVoid vb off b pos =
      (List.range b.len).map fun i => effBit vb (off + (pos + i)) := by
  by_cases hs : b.allSet = true
  · simp only [nullBitmapRunVoid, hs, if_true]
    rw [show List.replicate b.len true = (List.range b.len).map fun _ => true by
      simp [List.map_const, Function.const]]
    refine List.map_congr_left ?_
    intro i hi
    rw [List.mem_range] at hi
    rw [blockOkB_allSet h hs (pos + i) (by omega) (by omega)]
  · by_cases hc : b.allClear = true
    · simp only [nullBitmapRunVoid, hs, hc, if_true, if_false, Bool.false_eq_true]
      rw [show List.replicate b.len false = (List.range b.len).map fun _ => false by
        simp [List.map_const, Function.const]]
      refine List.map_congr_left ?_
      intro i hi
      rw [List.mem_range] at hi
      rw [blockOkB_allClear h hc (pos + i) (by omega) (by omega)]
    · simp only [nullBitmapRunVoid, hs, hc, if_false, Bool.false_eq_true]

/-- The void `VisitNullBitmapInline` block loop over well-formed blocks
equals the bit-by-bit reference. -/
lemma visitNullBitmapVoidAux_eq {vb : Option (Nat → Bool)} {off : Nat} :
    ∀ (blocks : List BitBlock) (pos : Nat), blocksOkB vb off pos blocks = true →
      visitNullBitmapVoidAux vb off blocks pos =
        (List.range (sumLen blocks)).map fun i => effBit vb (off + (pos + i)) := by
  intro blocks
  induction blocks with
  | nil => intro pos _; simp [visitNullBitmapVoidAux, sumLen]
  | cons b bs ih =>
    intro pos h
    rcases blocksOkB_cons h with ⟨h1, h2⟩
    have hsum : sumLen (b :: bs) = b.len + sumLen bs := by simp [sumLen]
    rw [visitNullBitmapVoidAux, nullBitmapRunVoid_eq h1, ih (pos + b.len) h2,
      hsum, List.range_add, List.map_append, List.map_map]
    congr 1
    refine List.map_congr_left ?_
    intro i _
    have h3 : pos + b.len + i = pos + (b.len + i) := by omega
    simp only [Function.comp, h3]

/-- Void `VisitNullBitmapInline` over any well-formed covering block
list passes exactly the individually tested bits, in order. -/
lemma VisitNullBitmapInlineVoid_eq_refScan {vb : Option (Nat → Bool)} {off L : Nat}
    {blocks : List BitBlock} (nc : Int)
    (hOk : blocksOkB vb off 0 blocks = true) (hCov : blocksCover blocks L) :
    VisitNullBitmapInlineVoid vb off L nc blocks =
      (List.range L).map fun i => effBit vb (off + i) := by
  rw [VisitNullBitmapInlineVoid, visitNullBitmapVoidAux_eq blocks 0 hOk, hCov]
  refine List.map_congr_left ?_
  intro i _
  simp

/-- If the callback selected by the bit test first fails at relative
position `k`, the bit-by-bit reference scan performs exactly the first
`k + 1` invocations and returns that error. -/
lemma refScanStatus_firstError {α ε : Type} (bm : Option (Nat → Bool)) (off : Nat)
    (vnn : Nat → Except ε Unit) (vn : Unit → Except ε Unit) (tagN tagU : Nat → α) :
    ∀ (k n pos : Nat) (e : ε), k < n →
      (∀ j, j < k →
        (if effBit bm (off + (pos + j)) then vnn (pos + j) else vn ()) = Except.ok ()) →
      (if effBit bm (off + (pos + k)) then vnn (pos + k) else vn ()) = Except.error e →
      refScanStatus bm off vnn vn tagN tagU pos n =
        ((List.range (k + 1)).map (fun j =>
          if effBit bm (off + (pos + j)) then tagN (pos + j) else tagU (pos + j)),
         Except.error e) := by
  intro k
  induction k with
  | zero =>
    intro n pos e hk hpre herr
    cases n with
    | zero => omega
    | succ m =>
      rw [Nat.add_zero] at herr
      by_cases hb : effBit bm (off + pos) = true
      · have hv : vnn pos = Except.error e := by
          rw [hb] at herr; simpa using herr
        simp [refScanStatus, hb, hv, List.range_succ]
      · have hv : vn () = Except.error e := by
          rw [Bool.not_eq_true] at hb
          rw [hb] at herr; simpa using herr
        rw [Bool.not_eq_true] at hb
        simp [refScanStatus, hb, hv, List.range_succ]
  | succ k ih =>
    intro n pos e hk hpre herr
    cases n with
    | zero => omega
    | succ m =>
      have h0 := hpre 0 (by omega)
      rw [Nat.add_zero] at h0
      have hpre2 : ∀ j, j < k →
          (if effBit bm (off + (pos + 1 + j)) then vnn (pos + 1 + j) else vn ()) =
            Except.ok () := by
        intro j hj
        have := hpre (j + 1) (by omega)
        have h4 : pos + (j + 1) = pos + 1 + j := by omega
        rwa [h4] at this
      have herr2 :
          (if effBit bm (off + (pos + 1 + k)) then vnn (pos + 1 + k) else vn ()) =
            Except.error e := by
        have h4 : pos + (k + 1) = pos + 1 + k := by omega
        rwa [h4] at herr
      have hrec := ih m (pos + 1) e (by omega) hpre2 herr2
      have hmap : (List.range (k + 1 + 1)).map (fun j =>
          if effBit bm (off + (pos + j)) then tagN (pos + j) else tagU (pos + j)) =
          (if effBit bm (off + pos) then tagN pos else tagU pos) ::
            (List.range (k + 1)).map (fun j =>
              if effBit bm (off + (pos + 1 + j)) then tagN (pos + 1 + j)
              else tagU (pos + 1 + j)) := by
        rw [List.range_succ_eq_map, List.map_cons, List.map_map]
        congr 1
        refine List.map_congr_left ?_
        intro j _
        have h4 : pos + (j + 1) = pos + 1 + j := by omega
        simp only [Function.comp, Nat.succ_eq_add_one, h4]
      by_cases hb : effBit bm (off + pos) = true
      · have hv : vnn pos = Except.ok () := by
          rw [hb] at h0; simpa using h0
        simp only [refScanStatus, hb, if_true, hv, hrec, hmap]
      · rw [Bool.not_eq_true] at hb
        have hv : vn () = Except.ok () := by
          rw [hb] at h0; simpa using h0
        simp only [refScanStatus, hb, if_false, Bool.false_eq_true, hv, hrec, hmap]

@[simp] lemma Ev_pos_notNull (p : Nat) : (Ev.notNull p).pos = p := rfl

@[simp] lemma Ev_pos_isNull (p : Nat) : (Ev.isNull p).pos = p := rfl

/-- With a null bitmap pointer, every invocation the fail-fast reference
scan performs is a not-null invocation. -/
lemma refScanStatus_none_trace {ε : Type} (off : Nat) (vnn : Nat → Except ε Unit)
    (vn : Unit → Except ε Unit) :
    ∀ (n pos : Nat),
      ((refScanStatus (none : Option (Nat → Bool)) off vnn vn Ev.notNull Ev.isNull
          pos n).1).map (fun e => Ev.notNull e.pos) =
        (refScanStatus (none : Option (Nat → Bool)) off vnn vn Ev.notNull Ev.isNull
          pos n).1 := by
  intro n
  induction n with
  | zero => intro pos; rfl
  | succ n ih =>
    intro pos
    have hb : effBit (none : Option (Nat → Bool)) (off + pos) = true := rfl
    simp only [refScanStatus, hb, if_true]
    cases hv : vnn pos with
    | ok u => simp [ih (pos + 1)]
    | error e => simp

/-- With a null bitmap pointer, the fail-fast validity reference scan
passes only `true`. -/
lemma nbRefScanStatus_none_trace {ε : Type} (off : Nat) (func : Bool → Except ε Unit) :
    ∀ (n pos : Nat),
      (nbRefScanStatus (none : Option (Nat → Bool)) off func pos n).1 =
        List.replicate
          (nbRefScanStatus (none : Option (Nat → Bool)) off func pos n).1.length
          true := by
  intro n
  induction n with
  | zero => intro pos; rfl
  | succ n ih =>
    intro pos
    have hb : effBit (none : Option (Nat → Bool)) (off + pos) = true := rfl
    simp only [nbRefScanStatus, hb]
    cases hv : func true with
    | ok u =>
      simp only [List.length_cons, List.replicate_succ, List.cons.injEq, true_and]
      exact ih (pos + 1)
    | error e => simp

/-- Data-pointer invariant of the all-set inner loop of the fixed-size
binary void traversal. -/
lemma fsbLoopSet_val {off w : Nat} :
    ∀ (n pos dp : Nat), dp = (off + pos) * w →
      ∀ i s l, FsbEv.val i s l ∈ fsbLoopSet w pos dp n →
        s = (off + i) * w ∧ l = w := by
  intro n
  induction n with
  | zero => intro pos dp _ i s l h; simp [fsbLoopSet] at h
  | succ n ih =>
    intro pos dp hdp i s l h
    simp only [fsbLoopSet, List.mem_cons] at h
    rcases h with h | h
    · injection h with h1 h2 h3
      subst h1; subst h2; subst h3
      exact ⟨hdp, rfl⟩
    · exact ih (pos + 1) (dp + w) (by rw [hdp]; ring) i s l h

/-- The all-clear inner loop of the fixed-size binary void traversal
produces no value invocations. -/
lemma fsbLoopClear_val {w : Nat} :
    ∀ (n pos dp : Nat) (i s l : Nat), FsbEv.val i s l ∈ fsbLoopClear w pos dp n → False := by
  intro n
  induction n with
  | zero => intro pos dp i s l h; simp [fsbLoopClear] at h
  | succ n ih =>
    intro pos dp i s l h
    simp only [fsbLoopClear, List.mem_cons] at h
    rcases h with h | h
    · cases h
    · exact ih (pos + 1) (dp + w) i s l h

/-- Data-pointer invariant of the mixed inner loop of the fixed-size
binary void traversal. -/
lemma fsbLoopMixed_val {bm : Option (Nat → Bool)} {off w : Nat} :
    ∀ (n pos dp : Nat), dp = (off + pos) * w →
      ∀ i s l, FsbEv.val i s l ∈ fsbLoopMixed bm off w pos dp n →
        s = (off + i) * w ∧ l = w := by
  intro n
  induction n with
  | zero => intro pos dp _ i s l h; simp [fsbLoopMixed] at h
  | succ n ih =>
    intro pos dp hdp i s l h
    simp only [fsbLoopMixed, List.mem_cons] at h
    rcases h with h | h
    · by_cases hb : effBit bm (off + pos) = true
      · rw [hb] at h
        simp only [if_true] at h
        injection h with h1 h2 h3
        subst h1; subst h2; subst h3
        exact ⟨hdp, rfl⟩
      · rw [Bool.not_eq_true] at hb
        rw [hb] at h
        simp only [if_false, Bool.false_eq_true] at h
        cases h
    · exact ih (pos + 1) (dp + w) (by rw [hdp]; ring) i s l h

/-- Data-pointer invariant of the fixed-size binary void block loop:
every value invocation sees the view starting at `(offset + i) * w` of
width `w`. -/
lemma fsbVisitVoidAux_val {bm : Option (Nat → Bool)} {off w : Nat} :
    ∀ (blocks : List BitBlock) (pos dp : Nat), dp = (off + pos) * w →
      ∀ i s l, FsbEv.val i s l ∈ fsbVisitVoidAux bm off w blocks pos dp →
        s = (off + i) * w ∧ l = w := by
  intro blocks
  induction blocks with
  | nil => intro pos dp _ i s l h; simp [fsbVisitVoidAux] at h
  | cons b bs ih =>
    intro pos dp hdp i s l h
    simp only [fsbVisitVoidAux, List.mem_append] at h
    rcases h with h | h
    · by_cases hs : b.allSet = true
      · rw [hs] at h; simp only [if_true] at h
        exact fsbLoopSet_val b.len pos dp hdp i s l h
      · rw [Bool.not_eq_true] at hs
        rw [hs] at h
        by_cases hc : b.allClear = true
        · rw [hc] at h; simp only [if_true, if_false, Bool.false_eq_true] at h
          exact absurd h (fun hh => fsbLoopClear_val b.len pos dp i s l hh)
        · rw [Bool.not_eq_true] at hc
          rw [hc] at h; simp only [if_false, Bool.false_eq_true] at h
          exact fsbLoopMixed_val b.len pos dp hdp i s l h
    · exact ih (pos + b.len) (dp + b.len * w) (by rw [hdp]; ring) i s l h

/-- Data-pointer invariant of the all-set inner loop of the fixed-size
binary fail-fast traversal. -/
lemma fsbStatusLoopSet_val {ε : Type} {off w : Nat}
    (func : Option (Nat × Nat) → Except ε Unit) :
    ∀ (n pos dp : Nat), dp = (off + pos) * w →
      ∀ i s l, FsbEv.val i s l ∈ (fsbStatusLoopSet w func pos dp n).1 →
        s = (off + i) * w ∧ l = w := by
  intro n
  induction n with
  | zero => intro pos dp _ i s l h; simp [fsbStatusLoopSet] at h
  | succ n ih =>
    intro pos dp hdp i s l h
    simp only [fsbStatusLoopSet] at h
    cases hv : func (some (dp, w)) with
    | ok u =>
      rw [hv] at h
      simp only [List.mem_cons] at h
      rcases h with h | h
      · injection h with h1 h2 h3
        subst h1; subst h2; subst h3
        exact ⟨hdp, rfl⟩
      · exact ih (pos + 1) (dp + w) (by rw [hdp]; ring) i s l h
    | error e =>
      rw [hv] at h
      simp only [List.mem_singleton] at h
      injection h with h1 h2 h3
      subst h1; subst h2; subst h3
      exact ⟨hdp, rfl⟩

/-- The all-clear inner loop of the fixed-size binary fail-fast
traversal produces no value invocations. -/
lemma fsbStatusLoopClear_val {ε : Type} {w : Nat}
    (func : Option (Nat × Nat) → Except ε Unit) :
    ∀ (n pos dp : Nat) (i s l : Nat),
      FsbEv.val i s l ∈ (fsbStatusLoopClear w func pos dp n).1 → False := by
  intro n
  induction n with
  | zero => intro pos dp i s l h; simp [fsbStatusLoopClear] at h
  | succ n ih =>
    intro pos dp i s l h
    simp only [fsbStatusLoopClear] at h
    cases hv : func none with
    | ok u =>
      rw [hv] at h
      simp only [List.mem_cons] at h
      rcases h with h | h
      · cases h
      · exact ih (pos + 1) (dp + w) i s l h
    | error e =>
      rw [hv] at h
      simp only [List.mem_singleton] at h
      cases h

/-- Data-pointer invariant of the mixed inner loop of the fixed-size
binary fail-fast traversal. -/
lemma fsbStatusLoopMixed_val {ε : Type} {bm : Option (Nat → Bool)} {off w : Nat}
    (func : Option (Nat × Nat) → Except ε Unit) :
    ∀ (n pos dp : Nat), dp = (off + pos) * w →
      ∀ i s l, FsbEv.val i s l ∈ (fsbStatusLoopMixed bm off w func pos dp n).1 →
        s = (off + i) * w ∧ l = w := by
  intro n
  induction n with
  | zero => intro pos dp _ i s l h; simp [fsbStatusLoopMixed] at h
  | succ n ih =>
    intro pos dp hdp i s l h
    simp only [fsbStatusLoopMixed] at h
    by_cases hb : effBit bm (off + pos) = true
    · rw [hb] at h
      simp only [if_true] at h
      cases hv : func (some (dp, w)) with
      | ok u =>
        rw [hv] at h
        simp only [List.mem_cons] at h
        rcases h with h | h
        · injection h with h1 h2 h3
          subst h1; subst h2; subst h3
          exact ⟨hdp, rfl⟩
        · exact ih (pos + 1) (dp + w) (by rw [hdp]; ring) i s l h
      | error e =>
        rw [hv] at h
        simp only [List.mem_singleton] at h
        injection h with h1 h2 h3
        subst h1; subst h2; subst h3
        exact ⟨hdp, rfl⟩
    · rw [Bool.not_eq_true] at hb
      rw [hb] at h
      simp only [if_false, Bool.false_eq_true] at h
      cases hv : func none with
      | ok u =>
        rw [hv] at h
        simp only [List.mem_cons] at h
        rcases h with h | h
        · cases h
        · exact ih (pos + 1) (dp + w) (by rw [hdp]; ring) i s l h
      | error e =>
        rw [hv] at h
        simp only [List.mem_singleton] at h
        cases h

/-- Data-pointer invariant of the fixed-size binary fail-fast block
loop. -/
lemma fsbVisitStatusAux_val {ε : Type} {bm : Option (Nat → Bool)} {off w : Nat}
    (func : Option (Nat × Nat) → Except ε Unit) :
    ∀ (blocks : List BitBlock) (pos dp : Nat), dp = (off + pos) * w →
      ∀ i s l, FsbEv.val i s l ∈ (fsbVisitStatusAux bm off w func blocks pos dp).1 →
        s = (off + i) * w ∧ l = w := by
  intro blocks
  induction blocks with
  | nil => intro pos dp _ i s l h; simp [fsbVisitStatusAux] at h
  | cons b bs ih =>
    intro pos dp hdp i s l h
    have hrun : ∀ i2 s2 l2,
        FsbEv.val i2 s2 l2 ∈
          (if b.allSet then fsbStatusLoopSet w func pos dp b.len
           else if b.allClear then fsbStatusLoopClear w func pos dp b.len
           else fsbStatusLoopMixed bm off w func pos dp b.len).1 →
          s2 = (off + i2) * w ∧ l2 = w := by
      intro i2 s2 l2 h2
      by_cases hs : b.allSet = true
      · rw [hs] at h2; simp only [if_true] at h2
        exact fsbStatusLoopSet_val func b.len pos dp hdp i2 s2 l2 h2
      · rw [Bool.not_eq_true] at hs
        rw [hs] at h2
        by_cases hc : b.allClear = true
        · rw [hc] at h2
          simp only [if_true, if_false, Bool.false_eq_true] at h2
          exact absurd h2 fun hh => fsbStatusLoopClear_val func b.len pos dp i2 s2 l2 hh
        · rw [Bool.not_eq_true] at hc
          rw [hc] at h2; simp only [if_false, Bool.false_eq_true] at h2
          exact fsbStatusLoopMixed_val func b.len pos dp hdp i2 s2 l2 h2
    simp only [fsbVisitStatusAux] at h
    cases hr : (if b.allSet then fsbStatusLoopSet w func pos dp b.len
        else if b.allClear then fsbStatusLoopClear w func pos dp b.len
        else fsbStatusLoopMixed bm off w func pos dp b.len).2 with
    | ok u =>
      rw [hr] at h
      simp only [List.mem_append] at h
      rcases h with h | h
      · exact hrun i s l h
      · exact ih (pos + b.len) (dp + b.len * w) (by rw [hdp]; ring) i s l h
    | error e =>
      rw [hr] at h
      exact hrun i s l h

/-- C1: for every array of length `L` and every validity bitmap pattern
(present or absent), the void-form traversal `VisitBitBlocksVoid`
invokes the combined not-null/null callback exactly `L` times, once per
logical position, covering positions `0..L-1` in strictly increasing
order (its invocation positions are exactly `List.range L`). -/
theorem c1_voidTraversalCoversAllPositions (bm : Option (Nat → Bool)) (off L : Nat)
    (blocks : List BitBlock) (hCov : blocksCover blocks L) :
    (VisitBitBlocksVoid bm off blocks Ev.notNull Ev.isNull).map Ev.pos = List.range L := by
  rw [VisitBitBlocksVoid, visitBitBlocksVoidAux_map_pos bm off blocks 0, hCov]
  simp

/-- Witness for C1: a five-element traversal with a mixed bitmap split
into two blocks. -/
theorem c1_voidTraversalCoversAllPositions_witness :
    (VisitBitBlocksVoid (some fun j => decide (j % 2 = 0)) 1
        [⟨2, false, false⟩, ⟨3, false, false⟩] Ev.notNull Ev.isNull).map Ev.pos =
      List.range 5 :=
  c1_voidTraversalCoversAllPositions (some fun j => decide (j % 2 = 0)) 1 5
    [⟨2, false, false⟩, ⟨3, false, false⟩] (by decide)

/-- C2: for every status-returning callback pair, if the callback
selected by the validity bit first fails at logical position `k`, then
`VisitBitBlocks` performs exactly `k + 1` invocations, visits positions
`0..k` only, and returns exactly the error produced at position `k`,
unwrapped. -/
theorem c2_failFastShortCircuit {ε : Type} (bm : Option (Nat → Bool)) (off L : Nat)
    (blocks : List BitBlock) (vnn : Nat → Except ε Unit) (vn : Unit → Except ε Unit)
    (k : Nat) (e : ε)
    (hOk : blocksOkB bm off 0 blocks = true) (hCov : blocksCover blocks L) (hk : k < L)
    (hpre : ∀ j, j < k → (if effBit bm (off + j) then vnn j else vn ()) = Except.ok ())
    (herr : (if effBit bm (off + k) then vnn k else vn ()) = Except.error e) :
    VisitBitBlocks bm off blocks vnn vn =
      ((List.range (k + 1)).map (fun j =>
        if effBit bm (off + j) then Ev.notNull j else Ev.isNull j), Except.error e) ∧
    (VisitBitBlocks bm off blocks vnn vn).1.length = k + 1 ∧
    (VisitBitBlocks bm off blocks vnn vn).1.map Ev.pos = List.range (k + 1) ∧
    (VisitBitBlocks bm off blocks vnn vn).2 = Except.error e := by
  have hpre2 : ∀ j, j < k →
      (if effBit bm (off + (0 + j)) then vnn (0 + j) else vn ()) = Except.ok () := by
    intro j hj
    simpa using hpre j hj
  have herr2 : (if effBit bm (off + (0 + k)) then vnn (0 + k) else vn ()) =
      Except.error e := by
    simpa using herr
  have hmain : VisitBitBlocks bm off blocks vnn vn =
      ((List.range (k + 1)).map (fun j =>
        if effBit bm (off + j) then Ev.notNull j else Ev.isNull j), Except.error e) := by
    rw [VisitBitBlocks,
      VisitBitBlocksTagged_eq_refScan vnn vn Ev.notNull Ev.isNull hOk hCov,
      refScanStatus_firstError bm off vnn vn Ev.notNull Ev.isNull k L 0 e hk hpre2 herr2]
    refine Prod.ext ?_ rfl
    refine List.map_congr_left ?_
    intro j _
    simp
  refine ⟨hmain, ?_, ?_, ?_⟩
  · rw [hmain]; simp
  · rw [hmain]
    simp only [List.map_map]
    have h5 : ∀ j ∈ List.range (k + 1),
        (Ev.pos ∘ fun j2 =>
          if effBit bm (off + j2) then Ev.notNull j2 else Ev.isNull j2) j = id j := by
      intro j _
      by_cases hb : effBit bm (off + j) = true <;> simp [Function.comp, hb]
    rw [List.map_congr_left h5, List.map_id]
  · rw [hmain]

/-- Witness for C2: a four-element mixed block where position 1 is null
and the not-null callback fails at position 2. -/
theorem c2_failFastShortCircuit_witness :
    VisitBitBlocks (some fun j => decide (j ≠ 1)) 0 [⟨4, false, false⟩]
        (fun i => if i = 2 then Except.error 7 else Except.ok ())
        (fun _ => (Except.ok () : Except Nat Unit)) =
      ((List.range 3).map (fun j =>
        if effBit (some fun j2 => decide (j2 ≠ 1)) (0 + j) then Ev.notNull j
        else Ev.isNull j), Except.error 7) ∧
    (VisitBitBlocks (some fun j => decide (j ≠ 1)) 0 [⟨4, false, false⟩]
        (fun i => if i = 2 then Except.error 7 else Except.ok ())
        (fun _ => (Except.ok () : Except Nat Unit))).1.length = 3 ∧
    (VisitBitBlocks (some fun j => decide (j ≠ 1)) 0 [⟨4, false, false⟩]
        (fun i => if i = 2 then Except.error 7 else Except.ok ())
        (fun _ => (Except.ok () : Except Nat Unit))).1.map Ev.pos = List.range 3 ∧
    (VisitBitBlocks (some fun j => decide (j ≠ 1)) 0 [⟨4, false, false⟩]
        (fun i => if i = 2 then Except.error 7 else Except.ok ())
        (fun _ => (Except.ok () : Except Nat Unit))).2 = Except.error 7 :=
  c2_failFastShortCircuit (some fun j => decide (j ≠ 1)) 0 4 [⟨4, false, false⟩]
    (fun i => if i = 2 then Except.error 7 else Except.ok ()) (fun _ => Except.ok ())
    2 7 (by decide) (by decide) (by decide) (by decide) (by decide)

/-- C3: for every variable-length binary/string array and every valid
position `i`, the byte view passed to the value callback starts at
`offsets[i]` and has byte length `offsets[i + 1] - offsets[i]`, where
the offsets pointer is the raw buffer advanced by the array offset
(`offsets[i]` reads raw index `offset + i`) while the value-buffer base
carries no array offset — for every value of the array's `offset`, in
both the void and the fail-fast form. -/
theorem c3_binaryViewBounds {ε : Type} (arr : BinaryArrayData) (blocks : List BitBlock)
    (func : Option ByteView → Except ε Unit)
    (hOk : blocksOkB arr.validity arr.offset 0 blocks = true)
    (hCov : blocksCover blocks arr.length) :
    binaryVisitVoid arr blocks = (List.range arr.length).map (fun i =>
      if effBit arr.validity (arr.offset + i) then
        BinEv.val i
          { base := if arr.hasDataBuf then BasePtr.dataBuffer else BasePtr.staticZero
            start := arr.offsetsBuf (arr.offset + i)
            len := arr.offsetsBuf (arr.offset + i + 1) - arr.offsetsBuf (arr.offset + i) }
      else BinEv.nul i) ∧
    binaryVisitStatus arr blocks func =
      refScanStatus arr.validity arr.offset
        (fun i => func (some
          { base := if arr.hasDataBuf then BasePtr.dataBuffer else BasePtr.staticZero
            start := arr.offsetsBuf (arr.offset + i)
            len := arr.offsetsBuf (arr.offset + i + 1) - arr.offsetsBuf (arr.offset + i) }))
        (fun _ => func none)
        (fun i => BinEv.val i
          { base := if arr.hasDataBuf then BasePtr.dataBuffer else BasePtr.staticZero
            start := arr.offsetsBuf (arr.offset + i)
            len := arr.offsetsBuf (arr.offset + i + 1) - arr.offsetsBuf (arr.offset + i) })
        (fun i => BinEv.nul i) 0 arr.length := by
  constructor
  · rw [binaryVisitVoid,
      VisitBitBlocksVoid_eq_refScan (fun i => BinEv.val i (binaryView arr i))
        (fun i => BinEv.nul i) hOk hCov, refScanVoid]
    refine List.map_congr_left ?_
    intro i _
    simp [binaryView]
  · rw [binaryVisitStatus,
      VisitBitBlocksTagged_eq_refScan (fun i => func (some (binaryView arr i)))
        (fun _ => func none) (fun i => BinEv.val i (binaryView arr i))
        (fun i => BinEv.nul i) hOk hCov]
    simp only [binaryView]

/-- Witness for C3: a sliced three-element binary array (offset 1) with
one null position. -/
theorem c3_binaryViewBounds_witness :
    binaryVisitVoid
        { validity := some fun j => decide (j ≠ 2), offsetsBuf := fun n => (2 * n : Int),
          hasDataBuf := true, offset := 1, length := 3 } [⟨3, false, false⟩] =
      (List.range 3).map (fun i =>
        if effBit (some fun j => decide (j ≠ 2)) (1 + i) then
          BinEv.val i
            { base := if true then BasePtr.dataBuffer else BasePtr.staticZero
              start := (2 * (1 + i) : Int)
              len := (2 * (1 + i + 1) : Int) - (2 * (1 + i) : Int) }
        else BinEv.nul i) ∧
    binaryVisitStatus
        { validity := some fun j => decide (j ≠ 2), offsetsBuf := fun n => (2 * n : Int),
          hasDataBuf := true, offset := 1, length := 3 } [⟨3, false, false⟩]
        (fun _ => (Except.ok () : Except Nat Unit)) =
      refScanStatus (some fun j => decide (j ≠ 2)) 1
        (fun _ => (Except.ok () : Except Nat Unit))
        (fun _ => (Except.ok () : Except Nat Unit))
        (fun i => BinEv.val i
          { base := if true then BasePtr.dataBuffer else BasePtr.staticZero
            start := (2 * (1 + i) : Int)
            len := (2 * (1 + i + 1) : Int) - (2 * (1 + i) : Int) })
        (fun i => BinEv.nul i) 0 3 :=
  c3_binaryViewBounds
    { validity := some fun j => decide (j ≠ 2), offsetsBuf := fun n => (2 * n : Int),
      hasDataBuf := true, offset := 1, length := 3 } [⟨3, false, false⟩]
    (fun _ => Except.ok ()) (by decide) (by decide)

/-- C4: for every fixed-size binary array with byte width `w`, every
byte view passed to the value callback at position `i` — in the void or
the fail-fast form, whatever the mix of null and non-null positions
before `i` — starts at data-buffer byte `(offset + i) * w` and has
length exactly `w`. -/
theorem c4_fsbViewAddressing {ε : Type} (arr : FsbArrayData) (blocks : List BitBlock)
    (func : Option (Nat × Nat) → Except ε Unit) (i s l : Nat)
    (h : FsbEv.val i s l ∈ fsbVisitVoid arr blocks ∨
         FsbEv.val i s l ∈ (fsbVisitStatus arr blocks func).1) :
    s = (arr.offset + i) * arr.byteWidth ∧ l = arr.byteWidth := by
  rcases h with h | h
  · simp only [fsbVisitVoid] at h
    exact fsbVisitVoidAux_val blocks 0 (arr.offset * arr.byteWidth) (by ring) i s l h
  · simp only [fsbVisitStatus] at h
    exact fsbVisitStatusAux_val func blocks 0 (arr.offset * arr.byteWidth) (by ring)
      i s l h

/-- Witness for C4: position 1 of a width-3 array sliced by offset 2
sees the view starting at byte 9. -/
theorem c4_fsbViewAddressing_witness : 9 = (2 + 1) * 3 ∧ 3 = 3 :=
  c4_fsbViewAddressing (ε := Nat)
    { validity := none, byteWidth := 3, offset := 2, length := 2 }
    [⟨2, true, false⟩] (fun _ => Except.ok ()) 1 9 3 (Or.inl (by decide))

/-- C5: when the validity bitmap buffer is absent, every position is
reported valid: the void value traversal invokes only the not-null
callback (its trace is exactly the not-null invocations at `0..L-1`),
every invocation of the fail-fast value traversal is a not-null
invocation, and both overloads of the null-bitmap iterator pass `true`
at every position they visit. -/
theorem c5_absentBitmapAllValid {α ε : Type} (off L : Nat) (blocks : List BitBlock)
    (nc : Int) (vnn vn : Nat → α) (svnn : Nat → Except ε Unit)
    (svn : Unit → Except ε Unit) (func : Bool → Except ε Unit)
    (hOk : blocksOkB (none : Option (Nat → Bool)) off 0 blocks = true)
    (hCov : blocksCover blocks L) :
    VisitBitBlocksVoid (none : Option (Nat → Bool)) off blocks vnn vn =
      (List.range L).map vnn ∧
    ((VisitBitBlocks (none : Option (Nat → Bool)) off blocks svnn svn).1).map
        (fun e => Ev.notNull e.pos) =
      (VisitBitBlocks (none : Option (Nat → Bool)) off blocks svnn svn).1 ∧
    VisitNullBitmapInlineVoid (none : Option (Nat → Bool)) off L nc blocks =
      List.replicate L true ∧
    (VisitNullBitmapInlineStatus (none : Option (Nat → Bool)) off L nc blocks func).1 =
      List.replicate
        (VisitNullBitmapInlineStatus (none : Option (Nat → Bool)) off L nc blocks
          func).1.length true := by
  refine ⟨?_, ?_, ?_, ?_⟩
  · rw [VisitBitBlocksVoid_eq_refScan vnn vn hOk hCov, refScanVoid]
    refine List.map_congr_left ?_
    intro i _
    rfl
  · rw [VisitBitBlocks, VisitBitBlocksTagged_eq_refScan svnn svn Ev.notNull Ev.isNull
      hOk hCov]
    exact refScanStatus_none_trace off svnn svn L 0
  · rw [VisitNullBitmapInlineVoid_eq_refScan nc hOk hCov]
    have h1 : ∀ i ∈ List.range L,
        effBit (none : Option (Nat → Bool)) (off + i) = Function.const Nat true i :=
      fun i _ => rfl
    rw [List.map_congr_left h1, List.map_const, List.length_range]
  · rw [VisitNullBitmapInlineStatus_eq_refScan nc func hOk hCov]
    exact nbRefScanStatus_none_trace off func L 0

/-- Witness for C5: an absent bitmap over three positions, with a
fail-fast callback that errors at position 1. -/
theorem c5_absentBitmapAllValid_witness :
    VisitBitBlocksVoid (none : Option (Nat → Bool)) 1 [⟨3, true, false⟩]
        (fun i => i) (fun i => 100 + i) = (List.range 3).map (fun i => i) ∧
    ((VisitBitBlocks (none : Option (Nat → Bool)) 1 [⟨3, true, false⟩]
        (fun i => if i = 1 then Except.error 5 else Except.ok ())
        (fun _ => (Except.ok () : Except Nat Unit))).1).map
        (fun e => Ev.notNull e.pos) =
      (VisitBitBlocks (none : Option (Nat → Bool)) 1 [⟨3, true, false⟩]
        (fun i => if i = 1 then Except.error 5 else Except.ok ())
        (fun _ => (Except.ok () : Except Nat Unit))).1 ∧
    VisitNullBitmapInlineVoid (none : Option (Nat → Bool)) 1 3 (-4) [⟨3, true, false⟩] =
      List.replicate 3 true ∧
    (VisitNullBitmapInlineStatus (none : Option (Nat → Bool)) 1 3 (-4) [⟨3, true, false⟩]
        (fun _ => (Except.ok () : Except Nat Unit))).1 =
      List.replicate
        (VisitNullBitmapInlineStatus (none : Option (Nat → Bool)) 1 3 (-4)
          [⟨3, true, false⟩] (fun _ => (Except.ok () : Except Nat Unit))).1.length true :=
  c5_absentBitmapAllValid 1 3 [⟨3, true, false⟩] (-4) (fun i => i) (fun i => 100 + i)
    (fun i => if i = 1 then Except.error 5 else Except.ok ()) (fun _ => Except.ok ())
    (fun _ => Except.ok ()) (by decide) (by decide)

/-- C6: invoking any of the three dispatchers with an unrecognized type
tag invokes no visitor method at all (the invocation list is empty) and
returns the distinguished "not implemented" error. -/
theorem c6_unrecognizedTagNotImplemented (c : Nat) (vt va vs : TypeId → AStatus) :
    VisitTypeInline (TypeId.unrecognized c) vt =
      ([], AStatus.NotImplemented "Type not implemented") ∧
    VisitArrayInline (TypeId.unrecognized c) va =
      ([], AStatus.NotImplemented "Type not implemented") ∧
    VisitScalarInline (TypeId.unrecognized c) vs =
      ([], AStatus.NotImplemented
        ("Scalar visitor for type not implemented " ++ toString c)) ∧
    (VisitTypeInline (TypeId.unrecognized c) vt).2.isNotImplemented = true ∧
    (VisitArrayInline (TypeId.unrecognized c) va).2.isNotImplemented = true ∧
    (VisitScalarInline (TypeId.unrecognized c) vs).2.isNotImplemented = true :=
  ⟨rfl, rfl, rfl, rfl, rfl, rfl⟩

/-- C7: `ArrayDataVisitor<T>::Visit` with a dual-method visitor is the
status-form optional-callback traversal `VisitStatus` run with the
callback mapping an empty optional to `VisitNull()` and a non-empty
optional `v` to `VisitValue(*v)` — the full invocation trace and the
returned result coincide, hence ordering, completeness and the
short-circuit point do. -/
theorem c7_arrayDataVisitorPureReexpression {c ε : Type} (bm : Option (Nat → Bool))
    (off : Nat) (blocks : List BitBlock) (value : Nat → c)
    (visitNullM : Unit → Except ε Unit) (visitValueM : c → Except ε Unit) :
    arrayDataVisitorVisit bm off blocks value visitNullM visitValueM =
      inlineVisitStatus bm off blocks value (specDualCallback visitNullM visitValueM) :=
  rfl

/-- C8: over any well-formed covering run list — in particular one whose
valid run crosses a 64-bit word boundary — the block-run-driven
traversals make at each position exactly the decision of a reference
scan that tests bit `offset + i` individually: the void and fail-fast
value engines equal their bit-by-bit references, and the void validity
iterator passes exactly the individually tested bits. -/
theorem c8_blockScanEqualsBitByBit {α ε : Type} (bm : Option (Nat → Bool)) (off L : Nat)
    (blocks : List BitBlock) (nc : Int) (vnnv vnv : Nat → α)
    (vnn : Nat → Except ε Unit) (vn : Unit → Except ε Unit)
    (hOk : blocksOkB bm off 0 blocks = true) (hCov : blocksCover blocks L) :
    VisitBitBlocksVoid bm off blocks vnnv vnv = refScanVoid bm off vnnv vnv L ∧
    VisitBitBlocks bm off blocks vnn vn =
      refScanStatus bm off vnn vn Ev.notNull Ev.isNull 0 L ∧
    VisitNullBitmapInlineVoid bm off L nc blocks =
      (List.range L).map (fun i => effBit bm (off + i)) := by
  refine ⟨?_, ?_, ?_⟩
  · exact VisitBitBlocksVoid_eq_refScan vnnv vnv hOk hCov
  · rw [VisitBitBlocks]
    exact VisitBitBlocksTagged_eq_refScan vnn vn Ev.notNull Ev.isNull hOk hCov
  · exact VisitNullBitmapInlineVoid_eq_refScan nc hOk hCov

/-- Witness for C8: a valid run covering bits 60..69 crosses the word
boundary between positions 63 and 64; the counter splits the 72
positions into a 64-bit block and an 8-bit block, both mixed. -/
theorem c8_blockScanEqualsBitByBit_witness :
    VisitBitBlocksVoid (some fun j => decide (60 ≤ j ∧ j < 70)) 0
        [⟨64, false, false⟩, ⟨8, false, false⟩] Ev.notNull Ev.isNull =
      refScanVoid (some fun j => decide (60 ≤ j ∧ j < 70)) 0 Ev.notNull Ev.isNull 72 ∧
    VisitBitBlocks (some fun j => decide (60 ≤ j ∧ j < 70)) 0
        [⟨64, false, false⟩, ⟨8, false, false⟩]
        (fun _ => (Except.ok () : Except Nat Unit)) (fun _ => Except.ok ()) =
      refScanStatus (some fun j => decide (60 ≤ j ∧ j < 70)) 0
        (fun _ => (Except.ok () : Except Nat Unit)) (fun _ => Except.ok ())
        Ev.notNull Ev.isNull 0 72 ∧
    VisitNullBitmapInlineVoid (some fun j => decide (60 ≤ j ∧ j < 70)) 0 72 0
        [⟨64, false, false⟩, ⟨8, false, false⟩] =
      (List.range 72).map
        (fun i => effBit (some fun j => decide (60 ≤ j ∧ j < 70)) (0 + i)) :=
  c8_blockScanEqualsBitByBit (some fun j => decide (60 ≤ j ∧ j < 70)) 0 72
    [⟨64, false, false⟩, ⟨8, false, false⟩] 0 Ev.notNull Ev.isNull
    (fun _ => Except.ok ()) (fun _ => Except.ok ()) (by decide) (by decide)

/-- C9: for a fixed bitmap, offset, length, run list and callback, the
`null_count` argument of `VisitNullBitmapInline` has no influence at
all: any two values of it yield identical invocation sequences and
identical results, in both the void and the fail-fast overload. -/
theorem c9_nullCountHasNoInfluence {ε : Type} (vb : Option (Nat → Bool)) (off n : Nat)
    (blocks : List BitBlock) (nc1 nc2 : Int) (func : Bool → Except ε Unit) :
    VisitNullBitmapInlineVoid vb off n nc1 blocks =
      VisitNullBitmapInlineVoid vb off n nc2 blocks ∧
    VisitNullBitmapInlineStatus vb off n nc1 blocks func =
      VisitNullBitmapInlineStatus vb off n nc2 blocks func :=
  ⟨rfl, rfl⟩

/-- C10: when the value buffer (`buffers[2]`) of a variable-length
binary array is absent, the adapter substitutes the static zero byte as
the data base — every value callback receives a view based at the
static byte, not at a null pointer — and when additionally every element
extent `offsets[i + 1] - offsets[i]` is zero, every valid position
yields an empty (zero-length) view. -/
theorem c10_absentValueBufferStaticZero (arr : BinaryArrayData) (blocks : List BitBlock)
    (hOk : blocksOkB arr.validity arr.offset 0 blocks = true)
    (hCov : blocksCover blocks arr.length)
    (hNoBuf : arr.hasDataBuf = false)
    (hzero : ∀ i, i < arr.length →
      arr.offsetsBuf (arr.offset + i + 1) = arr.offsetsBuf (arr.offset + i)) :
    binaryVisitVoid arr blocks = (List.range arr.length).map (fun i =>
      if effBit arr.validity (arr.offset + i) then
        BinEv.val i
          { base := BasePtr.staticZero
            start := arr.offsetsBuf (arr.offset + i)
            len := arr.offsetsBuf (arr.offset + i + 1) - arr.offsetsBuf (arr.offset + i) }
      else BinEv.nul i) ∧
    binaryVisitVoid arr blocks = (List.range arr.length).map (fun i =>
      if effBit arr.validity (arr.offset + i) then
        BinEv.val i
          { base := BasePtr.staticZero
            start := arr.offsetsBuf (arr.offset + i)
            len := 0 }
      else BinEv.nul i) := by
  have h1 : binaryVisitVoid arr blocks = (List.range arr.length).map (fun i =>
      if effBit arr.validity (arr.offset + i) then
        BinEv.val i
          { base := BasePtr.staticZero
            start := arr.offsetsBuf (arr.offset + i)
            len := arr.offsetsBuf (arr.offset + i + 1) - arr.offsetsBuf (arr.offset + i) }
      else BinEv.nul i) := by
    rw [binaryVisitVoid,
      VisitBitBlocksVoid_eq_refScan (fun i => BinEv.val i (binaryView arr i))
        (fun i => BinEv.nul i) hOk hCov, refScanVoid]
    refine List.map_congr_left ?_
    intro i _
    simp [binaryView, hNoBuf]
  refine ⟨h1, ?_⟩
  rw [h1]
  refine List.map_congr_left ?_
  intro i hi
  rw [List.mem_range] at hi
  rw [hzero i hi, sub_self]

/-- Witness for C10: a sliced two-element binary array with no value
buffer and constant offsets, one position null. -/
theorem c10_absentValueBufferStaticZero_witness :
    binaryVisitVoid
        { validity := some fun j => decide (j ≠ 2), offsetsBuf := fun _ => (5 : Int),
          hasDataBuf := false, offset := 1, length := 2 } [⟨2, false, false⟩] =
      (List.range 2).map (fun i =>
        if effBit (some fun j => decide (j ≠ 2)) (1 + i) then
          BinEv.val i
            { base := BasePtr.staticZero
              start := (5 : Int)
              len := (5 : Int) - (5 : Int) }
        else BinEv.nul i) ∧
    binaryVisitVoid
        { validity := some fun j => decide (j ≠ 2), offsetsBuf := fun _ => (5 : Int),
          hasDataBuf := false, offset := 1, length := 2 } [⟨2, false, false⟩] =
      (List.range 2).map (fun i =>
        if effBit (some fun j => decide (j ≠ 2)) (1 + i) then
          BinEv.val i
            { base := BasePtr.staticZero
              start := (5 : Int)
              len := 0 }
        else BinEv.nul i) :=
  c10_absentValueBufferStaticZero
    { validity := some fun j => decide (j ≠ 2), offsetsBuf := fun _ => (5 : Int),
      hasDataBuf := false, offset := 1, length := 2 }
    [⟨2, false, false⟩] (by decide) (by decide) (by decide)
    (fun i _ => rfl)
